import Mathlib

/-!
# Connection registry and delivery core of the comet push gateway

A shallow embedding of `src/connection/websocket/server.go`.

* Go pointers `*Client` are natural numbers indexing a heap `Nat → Client`;
  the registry `map[string]*Client` is a function `String → Option Nat`.
* A buffered Go channel is its buffer, its capacity and its closed flag.  A send on a
  closed channel and a close of a closed channel panic, as in the Go runtime, so every
  operation that touches a channel returns `Except Panic _`.
* Calls through `rpcClient` are recorded, in order, in `rpcLog`; the answer of the remote
  service is the function `rpcClient`.
* The coordinator loop `handleClients` is embedded as the function that processes one
  received event, and as its iteration over a list of events.
* `KickConnections` hands each client to the coordinator over an unbuffered channel, so
  it is embedded together with the coordinator: a schedule says, at each lookup, whether
  the coordinator has already finished the last request it received.
-/

namespace Comet

/-! ## Go runtime: channels and panics -/

/-- The two runtime panics the channel operations of `server.go` can raise. -/
inductive Panic where
  | sendOnClosedChannel
  | closeOfClosedChannel
  deriving DecidableEq, Repr

/-- The element type of `chan []byte`. -/
abbrev Bytes := List UInt8

/-- Go `[]byte(msg)`: the bytes of the string. -/
def bytesOf (msg : String) : Bytes := msg.toUTF8.data.toList

/-- A buffered channel `chan []byte`: undelivered payloads (oldest first), capacity,
closed flag.  The capacity is positive (`server.go` only makes channels of capacity
1024), so a send without blocking succeeds exactly when the buffer has room. -/
structure Chan where
  buf : List Bytes
  cap : Nat
  closed : Bool
  deriving DecidableEq, Repr

/-- Go `make(chan []byte, n)`. -/
def Chan.make (n : Nat) : Chan := { buf := [], cap := n, closed := false }

/-- Go `select { case ch <- v: ...; default: ... }`: `some ch'` when the send case ran,
`none` when the default case ran.  A send on a closed channel panics. -/
def Chan.trySend (ch : Chan) (v : Bytes) : Except Panic (Option Chan) :=
  if ch.closed then .error .sendOnClosedChannel
  else if ch.buf.length < ch.cap then .ok (some { ch with buf := ch.buf ++ [v] })
  else .ok none

/-- Go `close(ch)`. -/
def Chan.close (ch : Chan) : Except Panic Chan :=
  if ch.closed then .error .closeOfClosedChannel
  else .ok { ch with closed := true }

/-! ## Data model -/

/-- The transport handle `*websocket.Conn`: an identity and whether it was closed. -/
structure Conn where
  id : Nat
  closed : Bool
  deriving DecidableEq, Repr

/-- The fields of `Client` that `server.go` sets in `serveWs` (the back pointer `server`
is left out: it is a copy of the server that shares the registry). -/
structure Client where
  conn : Conn
  send : Chan
  connId : String
  info : String
  deriving DecidableEq, Repr

instance : Inhabited Client := ⟨⟨⟨0, false⟩, Chan.make 0, "", ""⟩⟩

/-- The decoded handshake token, `type TokenInfo struct`. -/
structure TokenInfo where
  ConnId : String
  Token : String
  Info : String
  deriving DecidableEq, Repr

/-- One call `rpcClient.SuccessRpc(class, method, args...)`. -/
structure RpcCall where
  cls : String
  method : String
  args : List String
  deriving DecidableEq, Repr

/-- The server together with the part of the Go heap it points into.
`clients` is `map[string]*Client`; `heap` gives the `Client` behind each pointer and
`next` is the first pointer not yet allocated; `rpcClient` is the answer of the remote
service (`none`: no error) and `rpcLog` the calls issued so far, oldest first. -/
structure Server where
  rpcAddr : String
  rpcPort : String
  rpcClient : RpcCall → Option String
  clients : String → Option Nat
  heap : Nat → Client
  next : Nat
  rpcLog : List RpcCall

/-- Go `func (s *Server) GetRpcAddr() string`. -/
def Server.GetRpcAddr (s : Server) : String := s.rpcAddr ++ s.rpcPort

/-- The call `s.rpcClient.SuccessRpc(cls, method, args...)`: the call is recorded and the
error of the remote service, if any, returned. -/
def Server.SuccessRpc (s : Server) (cls method : String) (args : List String) :
    Server × Option String :=
  let call : RpcCall := { cls := cls, method := method, args := args }
  ({ s with rpcLog := s.rpcLog ++ [call] }, s.rpcClient call)

/-! ## Delivery API -/

/-- The error text of `SendToConnection` when the mailbox is full,
`fmt.Sprintf("发送消息失败, to %s", connId)`. -/
def errSendFailed (connId : String) : String := "发送消息失败, to " ++ connId

/-- The error text of `SendToConnection` when the id is not in the registry,
`fmt.Sprintf("发送消息失败, 客户端不在维护中, to %s", connId)`. -/
def errNotMaintained (connId : String) : String :=
  "发送消息失败, 客户端不在维护中, to " ++ connId

/-- Go `func (s *Server) SendToConnection(connId string, msg string) error`. -/
def Server.SendToConnection (s : Server) (connId msg : String) :
    Except Panic (Server × Option String) :=
  match s.clients connId with
  | some p =>
    let client := s.heap p
    match client.send.trySend (bytesOf msg) with
    | .error e => .error e
    | .ok (some ch) =>
      .ok ({ s with heap := Function.update s.heap p { client with send := ch } }, none)
    | .ok none =>
      let s1 := { s with clients := Function.update s.clients connId none }
      match client.send.close with
      | .error e => .error e
      | .ok ch =>
        .ok ({ s1 with heap := Function.update s1.heap p { client with send := ch } },
          some (errSendFailed connId))
  | none => .ok (s, some (errNotMaintained connId))

/-- The loop of `SendToConnections`: the ids whose send returned an error, in order. -/
def Server.sendLoop (msg : String) :
    List String → Server → Except Panic (Server × List String)
  | [], s => .ok (s, [])
  | connId :: rest, s =>
    match s.SendToConnection connId msg with
    | .error e => .error e
    | .ok (s1, err) =>
      match Server.sendLoop msg rest s1 with
      | .error e => .error e
      | .ok (s2, errIds) =>
        .ok (s2, if err.isSome then connId :: errIds else errIds)

/-- Go `func (s *Server) SendToConnections(connections []string, msg string)
([]string, error)`. -/
def Server.SendToConnections (s : Server) (connections : List String) (msg : String) :
    Except Panic (Server × List String × Option String) :=
  match Server.sendLoop msg connections s with
  | .error e => .error e
  | .ok (s1, errIds) =>
    if errIds.length > 0 then .ok (s1, errIds, some "存在发送失败的消息")
    else .ok (s1, [], none)

/-! ## Registry coordinator -/

/-- Modelled from the spec: `Client.Close`, called by `handleClients`, is not in
`server.go`; the coordinator, on unregister, is to "close the session's mailbox and
transport".  The mailbox is closed with the Go `close`, which panics on a closed
channel. -/
def Client.Close (c : Client) : Except Panic Client :=
  match c.send.close with
  | .error e => .error e
  | .ok ch => .ok { c with send := ch, conn := { c.conn with closed := true } }

/-- What the coordinator receives: a client on `s.register` or on `s.unregister`. -/
inductive Event where
  | register (client : Nat)
  | unregister (client : Nat)
  deriving DecidableEq, Repr

/-- One iteration of the `for { select { ... } }` loop of
`func (s *Server) handleClients()`, for the event received. -/
def Server.handleClients (s : Server) : Event → Except Panic Server
  | .register p =>
    let client := s.heap p
    let s1 := { s with clients := Function.update s.clients client.connId (some p) }
    .ok (s1.SuccessRpc "Im" "online" [client.connId, client.info, s1.GetRpcAddr]).1
  | .unregister p =>
    let client := s.heap p
    let s1 := (s.SuccessRpc "Im" "offline" [client.connId, client.info, s.GetRpcAddr]).1
    match s1.clients client.connId with
    | some _ =>
      let s2 := { s1 with clients := Function.update s1.clients client.connId none }
      match client.Close with
      | .error e => .error e
      | .ok c => .ok { s2 with heap := Function.update s2.heap p c }
    | none => .ok s1

/-- The coordinator loop over the events it receives, in order. -/
def Server.handleClientsLoop : List Event → Server → Except Panic Server
  | [], s => .ok s
  | ev :: rest, s =>
    match s.handleClients ev with
    | .error e => .error e
    | .ok s1 => Server.handleClientsLoop rest s1

/-! ## `KickConnections` and the coordinator -/

/-- The coordinator, holding the unregister request `pending` it has received (if any),
either finishes it (`b`) or has not finished it yet: the state and the request it still
holds. -/
def Server.catchUp (s : Server) (pending : Option Nat) (b : Bool) :
    Except Panic (Server × Option Nat) :=
  match pending with
  | some p =>
    if b then
      match s.handleClients (.unregister p) with
      | .error e => .error e
      | .ok s1 => .ok (s1, none)
    else .ok (s, some p)
  | none => .ok (s, none)

/-- The loop of `KickConnections`, run against the coordinator.  The channel
`s.unregister` is unbuffered (`make(chan *Client)`), so `s.unregister <- client` returns
only when the coordinator receives the client, which it does at its `select`, after it
has finished the request it received before.  Hence at each lookup `s.clients[connId]`
the coordinator has finished every request but possibly the last one it received;
whether it has finished that one too is not fixed by the code and is read from `sched`
(one entry per listed id).  The result is the state when the loop ends, the request the
coordinator still holds, and the clients sent, in order. -/
def Server.kickLoop :
    List String → List Bool → Option Nat → Server →
      Except Panic (Server × Option Nat × List Nat)
  | [], _, pending, s => .ok (s, pending, [])
  | connId :: rest, sched, pending, s =>
    match s.catchUp pending (sched.headD true) with
    | .error e => .error e
    | .ok (s1, pending1) =>
      match s1.clients connId with
      | some client =>
        match s1.catchUp pending1 true with
        | .error e => .error e
        | .ok (s2, _) =>
          match Server.kickLoop rest sched.tail (some client) s2 with
          | .error e => .error e
          | .ok (s3, pending3, reqs) => .ok (s3, pending3, client :: reqs)
      | none => Server.kickLoop rest sched.tail pending1 s1

/-- Go `func (s *Server) KickConnections(connections []string) error`, run against the
coordinator under the schedule `sched`: the state when the call returns, the request the
coordinator still holds then, the clients sent on `s.unregister`, in order, and the
returned error (always nil).  The function itself writes nothing; the state changes
through the coordinator only. -/
def Server.KickConnections (s : Server) (connections : List String) (sched : List Bool) :
    Except Panic (Server × Option Nat × List Nat × Option String) :=
  match Server.kickLoop connections sched none s with
  | .error e => .error e
  | .ok (s1, pending, reqs) => .ok (s1, pending, reqs, none)

/-! ## Handshake -/

/-- An upgrade request: its URL query (`map[string][]string`) and what
`s.upgrader.Upgrade(w, r, nil)` yields for it (`none`: an error). -/
structure Request where
  query : String → Option (List String)
  upgrade : Option Nat

/-- What `serveWs` answers. -/
inductive Response where
  | httpError (code : Nat)
  | upgradeFailed
  | switchingProtocols
  deriving DecidableEq, Repr

/-- Go `http.StatusUnauthorized`. -/
def StatusUnauthorized : Nat := 401

/-- Go `http.StatusBadRequest`. -/
def StatusBadRequest : Nat := 400

/-- Go `func (s Server) responseWsUnauthorized(w http.ResponseWriter)`. -/
def responseWsUnauthorized : Response := .httpError StatusUnauthorized

/-- Go `func (s Server) checkToken(query map[string][]string) (*TokenInfo, error)`.
`unmarshal` is `json.Unmarshal` into a `TokenInfo` (`none`: an error). -/
def Server.checkToken (s : Server) (unmarshal : String → Option TokenInfo)
    (query : String → Option (List String)) : Server × Except String TokenInfo :=
  match query "t" with
  | none => (s, .error "确实参数")
  | some [] => (s, .error "确实参数")
  | some (t :: _) =>
    match unmarshal t with
    | none => (s, .error "消息体异常, 不能解析")
    | some tokenInfo =>
      let res := s.SuccessRpc "Im" "checkToken"
        [tokenInfo.ConnId, tokenInfo.Token, tokenInfo.Info, s.GetRpcAddr]
      match res.2 with
      | some e => (res.1, .error ("授权失败" ++ e))
      | none => (res.1, .ok tokenInfo)

/-- The allocation `client := &Client{...}` of `serveWs`: the new pointer is `s.next`. -/
def Server.newClient (s : Server) (c : Nat) (tokenInfo : TokenInfo) : Server × Nat :=
  ({ s with
      heap := Function.update s.heap s.next
        { conn := { id := c, closed := false }, send := Chan.make 1024,
          connId := tokenInfo.ConnId, info := tokenInfo.Info }
      next := s.next + 1 },
    s.next)

/-- Go `func (s Server) serveWs(w http.ResponseWriter, r *http.Request)`: the answer and
the client sent on `s.register`, if any. -/
def Server.serveWs (s : Server) (unmarshal : String → Option TokenInfo) (r : Request) :
    Server × Response × Option Nat :=
  match s.checkToken unmarshal r.query with
  | (s1, .error _) => (s1, responseWsUnauthorized, none)
  | (s1, .ok tokenInfo) =>
    match s1.clients tokenInfo.ConnId with
    | some _ => (s1, .httpError StatusBadRequest, none)
    | none =>
      match r.upgrade with
      | none => (s1, .upgradeFailed, none)
      | some c =>
        let (s2, client) := s1.newClient c tokenInfo
        (s2, .switchingProtocols, some client)

/-- Go `func NewWebSocketServer(config, rpcClient) *Server`: the addresses read from
the configuration and an empty registry. -/
def NewWebSocketServer (config : String → Option String)
    (rpcClient : RpcCall → Option String) : Server :=
  { rpcAddr := (config "comet_rpc_addr").getD "127.0.0.1"
    rpcPort := ":" ++ (config "comet_rpc_port").getD "8901"
    rpcClient := rpcClient
    clients := fun _ => none
    heap := fun _ => default
    next := 0
    rpcLog := [] }

/-! ## Specification vocabulary -/

/-- The registry invariant of the data model: every entry holds a session stored under
its own connection id whose mailbox and transport have not been closed. -/
def RegistryInv (s : Server) : Prop :=
  ∀ connId p, s.clients connId = some p →
    (s.heap p).connId = connId ∧ (s.heap p).send.closed = false ∧
      (s.heap p).conn.closed = false

/-- Every pointer in the registry has been allocated. -/
def Allocated (s : Server) : Prop :=
  ∀ connId p, s.clients connId = some p → p < s.next

/-- The entry stored under the connection id of the session `p`, if there is one, is `p`
itself. -/
def Server.ownsEntry (s : Server) (p : Nat) : Prop :=
  ∀ q, s.clients (s.heap p).connId = some q → q = p

/-- Whether a delivery to `connId` cannot be enqueued in state `s`: the id is not in the
registry, or its mailbox holds as many payloads as its capacity. -/
def Server.undeliverable (s : Server) (connId : String) : Bool :=
  match s.clients connId with
  | none => true
  | some p => decide ((s.heap p).send.cap ≤ (s.heap p).send.buf.length)

/-- Consecutive calls `SendToConnection(connId, m)` for the payloads `m` of a list, in
order, with nothing else in between; the errors returned, in order. -/
def Server.sendAll (connId : String) :
    List String → Server → Except Panic (Server × List (Option String))
  | [], s => .ok (s, [])
  | m :: rest, s =>
    match s.SendToConnection connId m with
    | .error e => .error e
    | .ok (s1, err) =>
      match Server.sendAll connId rest s1 with
      | .error e => .error e
      | .ok (s2, errs) => .ok (s2, err :: errs)

/-- The `offline` presence call the coordinator issues for the client `c`. -/
def offlineCall (c : Client) (addr : String) : RpcCall :=
  { cls := "Im", method := "offline", args := [c.connId, c.info, addr] }

/-- The `checkToken` call the handshake issues for a decoded token. -/
def checkTokenCall (t : TokenInfo) (addr : String) : RpcCall :=
  { cls := "Im", method := "checkToken", args := [t.ConnId, t.Token, t.Info, addr] }

/-- Modelled from the spec: the writer task of a session (`Client.Write`, not in
`server.go`) "dequeues the next payload from the session's mailbox"; this is the effect
of one dequeue on the mailbox of the session `p`. -/
def Server.dequeue (s : Server) (p : Nat) : Server :=
  { s with
    heap := Function.update s.heap p
      { (s.heap p) with send := { (s.heap p).send with buf := (s.heap p).send.buf.tail } } }

/-- The states the server can be in: from the empty registry, by coordinator register
events for freshly created sessions (the session is allocated as `serveWs` does and
registered, whether or not its id is already registered), coordinator unregister events
for sessions created before, the three Delivery API calls (a kick runs against the
coordinator, which processes the request it may still hold at the end by an unregister
event), dequeues by the writer tasks and handshakes.  Only steps that return are steps: a panic ends the process. -/
inductive Reachable : Server → Prop where
  | init (config : String → Option String) (rpcClient : RpcCall → Option String) :
    Reachable (NewWebSocketServer config rpcClient)
  | register {s s' : Server} (c : Nat) (tokenInfo : TokenInfo) :
    Reachable s →
    (s.newClient c tokenInfo).1.handleClients (.register (s.newClient c tokenInfo).2)
      = .ok s' →
    Reachable s'
  | unregister {s s' : Server} (p : Nat) :
    Reachable s → p < s.next → s.handleClients (.unregister p) = .ok s' → Reachable s'
  | send {s s' : Server} (connId msg : String) (err : Option String) :
    Reachable s → s.SendToConnection connId msg = .ok (s', err) → Reachable s'
  | sendMany {s s' : Server} (connections : List String) (msg : String)
      (res : List String × Option String) :
    Reachable s → s.SendToConnections connections msg = .ok (s', res) → Reachable s'
  | kick {s s' : Server} (connections : List String) (sched : List Bool)
      (res : Option Nat × List Nat × Option String) :
    Reachable s → s.KickConnections connections sched = .ok (s', res) → Reachable s'
  | dequeue {s : Server} (p : Nat) : Reachable s → Reachable (s.dequeue p)
  | handshake {s : Server} (unmarshal : String → Option TokenInfo) (r : Request) :
    Reachable s → Reachable (s.serveWs unmarshal r).1

/-! ## Concrete states -/

/-- A registry with `c1` (pointer 0, empty mailbox) and `c3` (pointer 1, mailbox holding
1024 payloads); `c2` is not registered. -/
def demoClients : String → Option Nat :=
  fun connId => if connId = "c1" then some 0 else if connId = "c3" then some 1 else none

/-- The sessions behind `demoClients`, both with the capacity the handshake gives. -/
def demoHeap : Nat → Client :=
  fun p =>
    if p = 0 then
      { conn := { id := 10, closed := false }, send := Chan.make 1024,
        connId := "c1", info := "i1" }
    else if p = 1 then
      { conn := { id := 11, closed := false },
        send := { buf := List.replicate 1024 (bytesOf "x"), cap := 1024, closed := false },
        connId := "c3", info := "i3" }
    else default

/-- A server in the state described by `demoClients` and `demoHeap`. -/
def demoServer : Server :=
  { NewWebSocketServer (fun _ => none) (fun _ => none) with
    clients := demoClients, heap := demoHeap, next := 2 }

/-- The demo server with a remote service that refuses every call. -/
def refusingServer : Server := { demoServer with rpcClient := fun _ => some "denied" }

/-- The token the handshake decodes for `c1`. -/
def c1Token : TokenInfo := { ConnId := "c1", Token := "tok", Info := "i1" }

/-- The truncated token text `{"conn_id":"c1"`. -/
def truncatedToken : String := "\x7b\"conn_id\":\"c1\""

/-- A well-formed token text for `c1`. -/
def validToken : String :=
  "\x7b\"conn_id\":\"c1\",\"token\":\"tok\",\"info\":\"i1\"\x7d"

/-- The answers of `json.Unmarshal` on the two token texts above: the well-formed text
decodes, the truncated one (like every other text here) is an error. -/
def demoUnmarshal : String → Option TokenInfo :=
  fun t => if t = validToken then some { ConnId := "c1", Token := "tok", Info := "i1" }
    else none

/-- An upgrade request whose query holds the single value `t` for the key `t`. -/
def demoRequest (t : String) : Request :=
  { query := fun k => if k = "t" then some [t] else none, upgrade := some 12 }

/-- An upgrade request without the `t` parameter. -/
def emptyRequest : Request := { query := fun _ => none, upgrade := some 12 }

/-- A new server with the default configuration and a remote service that accepts
every call. -/
def freshServer : Server := NewWebSocketServer (fun _ => none) (fun _ => none)

/-- The state after the coordinator registered the handshake session of `c1`. -/
def registeredServer : Server :=
  match (freshServer.newClient 7 c1Token).1.handleClients
      (.register (freshServer.newClient 7 c1Token).2) with
  | .ok s => s
  | .error _ => freshServer

/-- The state after the coordinator registered a second session for `c1` while the
first one was still registered (two handshakes for the same id that both passed the
duplicate check before either was registered). -/
def duplicateServer : Server :=
  match (registeredServer.newClient 8 c1Token).1.handleClients
      (.register (registeredServer.newClient 8 c1Token).2) with
  | .ok s => s
  | .error _ => registeredServer

/-! ## The three outcomes of `SendToConnection` -/

theorem sendToConnection_absent (s : Server) (connId msg : String)
    (h : s.clients connId = none) :
    s.SendToConnection connId msg = .ok (s, some (errNotMaintained connId)) := by
  simp [Server.SendToConnection, h]

theorem sendToConnection_room (s : Server) (connId msg : String) (p : Nat)
    (hp : s.clients connId = some p) (hopen : (s.heap p).send.closed = false)
    (hroom : (s.heap p).send.buf.length < (s.heap p).send.cap) :
    s.SendToConnection connId msg =
      .ok ({ s with
              heap := Function.update s.heap p
                { (s.heap p) with
                  send := { (s.heap p).send with
                            buf := (s.heap p).send.buf ++ [bytesOf msg] } } },
        none) := by
  simp [Server.SendToConnection, hp, Chan.trySend, hopen, hroom]

theorem sendToConnection_full (s : Server) (connId msg : String) (p : Nat)
    (hp : s.clients connId = some p) (hopen : (s.heap p).send.closed = false)
    (hfull : (s.heap p).send.cap ≤ (s.heap p).send.buf.length) :
    s.SendToConnection connId msg =
      .ok ({ s with
              clients := Function.update s.clients connId none
              heap := Function.update s.heap p
                { (s.heap p) with send := { (s.heap p).send with closed := true } } },
        some (errSendFailed connId)) := by
  simp [Server.SendToConnection, hp, Chan.trySend, Chan.close, hopen, Nat.not_lt.mpr hfull]

theorem errNotMaintained_ne_errSendFailed (a b : String) :
    errNotMaintained a ≠ errSendFailed b := by
  intro h
  have h2 := congrArg String.data h
  simp [errNotMaintained, errSendFailed, String.data_append] at h2

theorem errNotMaintained_injective (a b : String)
    (h : errNotMaintained a = errNotMaintained b) : a = b := by
  have h2 := congrArg String.data h
  simp only [errNotMaintained, String.data_append, List.append_cancel_left_eq] at h2
  exact String.ext h2

theorem errSendFailed_injective (a b : String)
    (h : errSendFailed a = errSendFailed b) : a = b := by
  have h2 := congrArg String.data h
  simp only [errSendFailed, String.data_append, List.append_cancel_left_eq] at h2
  exact String.ext h2

/-! ## One delivery step under the registry invariant -/

theorem undeliverable_absent (s : Server) (connId : String) (h : s.clients connId = none) :
    s.undeliverable connId = true := by
  simp [Server.undeliverable, h]

theorem undeliverable_present (s : Server) (connId : String) (p : Nat)
    (h : s.clients connId = some p) :
    s.undeliverable connId = decide ((s.heap p).send.cap ≤ (s.heap p).send.buf.length) := by
  simp [Server.undeliverable, h]

/-- Two ids registered in a state that satisfies the invariant and equal as pointers
are the same id. -/
theorem RegistryInv.ptr_injective {s : Server} (hinv : RegistryInv s) {a b : String}
    {p : Nat} (ha : s.clients a = some p) (hb : s.clients b = some p) : a = b := by
  rw [← (hinv a p ha).1, ← (hinv b p hb).1]

/-- A delivery step from a state that satisfies the invariant: it returns, it fails
exactly when the id was undeliverable, it keeps the invariant and it touches only the
entry and the session of its own id. -/
theorem sendToConnection_step (s : Server) (a msg : String) (hinv : RegistryInv s) :
    ∃ s1 err, s.SendToConnection a msg = .ok (s1, err) ∧
      err.isSome = s.undeliverable a ∧ RegistryInv s1 ∧
      (∀ id, id ≠ a → s1.clients id = s.clients id) ∧
      (∀ id, s1.clients id = s.clients id ∨ s1.clients id = none) ∧
      (∀ id q, id ≠ a → s.clients id = some q → s1.heap q = s.heap q) ∧
      (∀ p, s.clients a = some p → (s.heap p).send.buf.length < (s.heap p).send.cap →
        s1.clients a = some p ∧
        (s1.heap p).send.buf = (s.heap p).send.buf ++ [bytesOf msg] ∧
        (s1.heap p).send.cap = (s.heap p).send.cap) := by
  cases hp : s.clients a with
  | none =>
    refine ⟨s, _, sendToConnection_absent s a msg hp, ?_, hinv, ?_, ?_, ?_, ?_⟩
    · simp [undeliverable_absent s a hp]
    · intros; rfl
    · intro id; exact Or.inl rfl
    · intros; rfl
    · intro p h; simp [hp] at h
  | some p =>
    obtain ⟨hid, hopen, hconn⟩ := hinv a p hp
    have hother : ∀ id q, id ≠ a → s.clients id = some q → q ≠ p := by
      intro id q hne hq hqp
      subst hqp
      exact hne (hinv.ptr_injective hq hp)
    by_cases hroom : (s.heap p).send.buf.length < (s.heap p).send.cap
    · refine ⟨_, _, sendToConnection_room s a msg p hp hopen hroom, ?_, ?_, ?_, ?_, ?_, ?_⟩
      · simp [undeliverable_present s a p hp, hroom]
      · intro id q hq
        by_cases hqp : q = p
        · subst hqp
          have := hinv id q hq
          simpa [Function.update_same] using this
        · have := hinv id q hq
          simpa [Function.update_noteq hqp] using this
      · intros; rfl
      · intro id; exact Or.inl rfl
      · intro id q hne hq
        simp [Function.update_noteq (hother id q hne hq)]
      · intro p2 hp2 _
        have : p2 = p := (Option.some.inj hp2).symm
        subst this
        simp [hp]
    · have hfull : (s.heap p).send.cap ≤ (s.heap p).send.buf.length := Nat.not_lt.mp hroom
      refine ⟨_, _, sendToConnection_full s a msg p hp hopen hfull, ?_, ?_, ?_, ?_, ?_, ?_⟩
      · simp [undeliverable_present s a p hp, hfull]
      · intro id q hq
        by_cases hida : id = a
        · subst hida; simp at hq
        · have hq2 : s.clients id = some q := by simpa [Function.update_noteq hida] using hq
          have := hinv id q hq2
          simpa [Function.update_noteq (hother id q hida hq2)] using this
      · intro id hne; simp [Function.update_noteq hne]
      · intro id
        by_cases hida : id = a
        · subst hida; right; simp
        · left; simp [Function.update_noteq hida]
      · intro id q hne hq
        simp [Function.update_noteq (hother id q hne hq)]
      · intro p2 hp2 h2
        have : p2 = p := (Option.some.inj hp2).symm
        subst this
        exact absurd h2 hroom

theorem undeliverable_false (s : Server) (connId : String)
    (h : s.undeliverable connId = false) :
    ∃ p, s.clients connId = some p ∧ (s.heap p).send.buf.length < (s.heap p).send.cap := by
  cases hp : s.clients connId with
  | none => simp [undeliverable_absent s connId hp] at h
  | some p =>
    refine ⟨p, rfl, ?_⟩
    rw [undeliverable_present s connId p hp] at h
    exact Nat.not_le.mp (of_decide_eq_false h)

/-- The loop of `SendToConnections` over pairwise distinct ids, from a state that
satisfies the invariant. -/
theorem sendLoop_distinct (msg : String) (ids : List String) :
    ∀ s : Server, RegistryInv s → ids.Nodup →
      ∃ s', Server.sendLoop msg ids s = .ok (s', ids.filter s.undeliverable) ∧
        RegistryInv s' ∧
        (∀ id, id ∉ ids → s'.clients id = s.clients id ∧
          ∀ q, s.clients id = some q → s'.heap q = s.heap q) ∧
        (∀ id, id ∈ ids → ∀ p, s.clients id = some p →
          (s.heap p).send.buf.length < (s.heap p).send.cap →
          s'.clients id = some p ∧
          (s'.heap p).send.buf = (s.heap p).send.buf ++ [bytesOf msg]) := by
  induction ids with
  | nil =>
    intro s hinv _
    exact ⟨s, rfl, hinv, fun _ _ => ⟨rfl, fun _ _ => rfl⟩, fun _ h => absurd h (List.not_mem_nil _)⟩
  | cons a rest ih =>
    intro s hinv hnd
    obtain ⟨ha, hrest⟩ := List.nodup_cons.mp hnd
    obtain ⟨s1, err, hstep, herr, hinv1, hcl, _, hheap, hroom⟩ :=
      sendToConnection_step s a msg hinv
    obtain ⟨s2, hloop, hinv2, hout, hin⟩ := ih s1 hinv1 hrest
    have hne : ∀ id, id ∈ rest → id ≠ a := fun id hid h => ha (h ▸ hid)
    have hsame : ∀ id, id ∈ rest → s1.undeliverable id = s.undeliverable id := by
      intro id hid
      have h1 := hcl id (hne id hid)
      cases hq : s.clients id with
      | none => simp [Server.undeliverable, h1, hq]
      | some q =>
        have h2 := hheap id q (hne id hid) hq
        simp [Server.undeliverable, h1, hq, h2]
    have hfilter : rest.filter s1.undeliverable = rest.filter s.undeliverable :=
      List.filter_congr hsame
    refine ⟨s2, ?_, hinv2, ?_, ?_⟩
    · simp only [Server.sendLoop, hstep, hloop, hfilter, List.filter_cons, ← herr]
    · intro id hid
      have hida : id ≠ a := fun h => hid (h ▸ List.mem_cons_self _ _)
      have hidr : id ∉ rest := fun h => hid (List.mem_cons_of_mem _ h)
      obtain ⟨h1, h2⟩ := hout id hidr
      refine ⟨by rw [h1, hcl id hida], ?_⟩
      intro q hq
      rw [h2 q (by rw [hcl id hida]; exact hq), hheap id q hida hq]
    · intro id hid p hp hlt
      rcases List.mem_cons.mp hid with rfl | hidr
      · obtain ⟨h1, h2, _⟩ := hroom p hp hlt
        obtain ⟨h3, h4⟩ := hout id ha
        exact ⟨by rw [h3, h1], by rw [h4 p h1, h2]⟩
      · have h1 : s1.clients id = some p := by rw [hcl id (hne id hidr)]; exact hp
        have h2 : s1.heap p = s.heap p := hheap id p (hne id hidr) hp
        obtain ⟨h3, h4⟩ := hin id hidr p h1 (by rw [h2]; exact hlt)
        exact ⟨h3, by rw [h4, h2]⟩

/-- C1: for every registry state that satisfies the registry invariant, every payload and
every list of pairwise distinct connection ids, `SendToConnections` returns exactly the
listed ids that were not in the registry or had a full mailbox before the call, in input
order, with a non-nil error exactly when that list is non-empty (an empty list and a nil
error otherwise); every other listed id stays registered and has the payload appended
once at the tail of its mailbox, whatever happened to the ids before it. -/
theorem sendToConnections_partial_failure (s : Server) (connections : List String)
    (msg : String) (hinv : RegistryInv s) (hnd : connections.Nodup) :
    ∃ s', s.SendToConnections connections msg =
        .ok (s', connections.filter s.undeliverable,
          if connections.filter s.undeliverable = [] then none
          else some "存在发送失败的消息") ∧
      ∀ connId, connId ∈ connections → s.undeliverable connId = false →
        ∃ p, s.clients connId = some p ∧ s'.clients connId = some p ∧
          (s'.heap p).send.buf = (s.heap p).send.buf ++ [bytesOf msg] := by
  obtain ⟨s', hloop, _, _, hin⟩ := sendLoop_distinct msg connections s hinv hnd
  refine ⟨s', ?_, ?_⟩
  · simp only [Server.SendToConnections, hloop]
    cases h : connections.filter s.undeliverable with
    | nil => simp
    | cons x xs => simp
  · intro connId hmem hdel
    obtain ⟨p, hp, hlt⟩ := undeliverable_false s connId hdel
    obtain ⟨h1, h2⟩ := hin connId hmem p hp hlt
    exact ⟨p, hp, h1, h2⟩

theorem demoServer_inv : RegistryInv demoServer := by
  intro connId p h
  simp only [demoServer, demoClients] at h
  split at h
  · cases h; subst_vars; exact ⟨rfl, rfl, rfl⟩
  · split at h
    · cases h; subst_vars; exact ⟨rfl, rfl, rfl⟩
    · cases h

/-- Witness of C1: the scenario `SendToConnections(["c1","c2"], "hello")` with `c1`
registered and `c2` not: the call returns `(["c2"], error)` and `c1` receives the
payload. -/
theorem sendToConnections_partial_failure_witness :
    RegistryInv demoServer ∧ ["c1", "c2"].Nodup ∧
    ∃ s', demoServer.SendToConnections ["c1", "c2"] "hello" =
        .ok (s', ["c2"], some "存在发送失败的消息") ∧
      s'.clients "c1" = some 0 ∧ (s'.heap 0).send.buf = [bytesOf "hello"] := by
  obtain ⟨s', hs, hall⟩ :=
    sendToConnections_partial_failure demoServer ["c1", "c2"] "hello" demoServer_inv
      (by decide)
  have hfilter : ["c1", "c2"].filter demoServer.undeliverable = ["c2"] := by decide
  rw [hfilter] at hs
  obtain ⟨p, hp, hp', hbuf⟩ := hall "c1" (by decide) (by decide)
  have hp0 : p = 0 := by
    have : demoServer.clients "c1" = some 0 := by decide
    rw [this] at hp
    exact (Option.some.inj hp).symm
  subst hp0
  exact ⟨demoServer_inv, by decide, s', hs, hp', hbuf⟩

/-- C2: a delivery to a registered connection id whose open mailbox holds as many
payloads as its capacity returns the mailbox-full error naming the id, deletes the id
from the registry, closes that mailbox without enqueuing the payload, and leaves every
other registry entry, every other session and the rest of that session unchanged; a
session built by the handshake has capacity 1024. -/
theorem sendToConnection_full_mailbox (s : Server) (connId msg : String) (p : Nat)
    (hp : s.clients connId = some p) (hopen : (s.heap p).send.closed = false)
    (hfull : (s.heap p).send.buf.length = (s.heap p).send.cap) :
    (∃ s', s.SendToConnection connId msg = .ok (s', some (errSendFailed connId)) ∧
      s'.clients connId = none ∧
      (s'.heap p).send = { (s.heap p).send with closed := true } ∧
      (s'.heap p).conn = (s.heap p).conn ∧
      (s'.heap p).connId = (s.heap p).connId ∧
      (∀ id, id ≠ connId → s'.clients id = s.clients id) ∧
      (∀ q, q ≠ p → s'.heap q = s.heap q)) ∧
    (∀ other, errSendFailed connId = errSendFailed other → connId = other) ∧
    (∀ (s0 : Server) (c : Nat) (tokenInfo : TokenInfo),
      ((s0.newClient c tokenInfo).1.heap (s0.newClient c tokenInfo).2).send.cap = 1024) := by
  refine ⟨⟨_, sendToConnection_full s connId msg p hp hopen (Nat.le_of_eq hfull.symm),
    ?_, ?_, ?_, ?_, ?_, ?_⟩, fun other h => errSendFailed_injective _ _ h, ?_⟩
  · simp
  · simp
  · simp
  · simp
  · intro id hne; simp [Function.update_noteq hne]
  · intro q hne; simp [Function.update_noteq hne]
  · intro s0 c tokenInfo; simp [Server.newClient, Chan.make]

/-- Witness of C2: a delivery to `c3`, whose mailbox holds 1024 payloads. -/
theorem sendToConnection_full_mailbox_witness :
    demoServer.clients "c3" = some 1 ∧ (demoServer.heap 1).send.closed = false ∧
    (demoServer.heap 1).send.buf.length = (demoServer.heap 1).send.cap ∧
    ∃ s', demoServer.SendToConnection "c3" "hello" = .ok (s', some (errSendFailed "c3")) ∧
      s'.clients "c3" = none ∧ (s'.heap 1).send.closed = true ∧
      (s'.heap 1).send.buf = (demoServer.heap 1).send.buf ∧
      s'.clients "c1" = some 0 ∧ s'.heap 0 = demoServer.heap 0 := by
  have h1 : demoServer.clients "c3" = some 1 := by decide
  have h2 : (demoServer.heap 1).send.closed = false := by decide
  have h3 : (demoServer.heap 1).send.buf.length = (demoServer.heap 1).send.cap :=
    List.length_replicate 1024 (bytesOf "x")
  obtain ⟨⟨s', hs, hc, hsend, _, _, hcl, hheap⟩, _, _⟩ :=
    sendToConnection_full_mailbox demoServer "c3" "hello" 1 h1 h2 h3
  refine ⟨h1, h2, h3, s', hs, hc, ?_, ?_, ?_, hheap 0 (by decide)⟩
  · rw [hsend]
  · rw [hsend]
  · rw [hcl "c1" (by decide)]; decide

/-- C3: a delivery to a connection id that is not in the registry returns the
"not maintained" (unknown connection) error carrying that id and leaves the whole state
unchanged; that error differs from the mailbox-full error of every connection id. -/
theorem sendToConnection_unknown_connection (s : Server) (connId msg : String)
    (h : s.clients connId = none) :
    s.SendToConnection connId msg = .ok (s, some (errNotMaintained connId)) ∧
    (∀ other, errNotMaintained connId ≠ errSendFailed other) ∧
    (∀ other, errNotMaintained connId = errNotMaintained other → connId = other) :=
  ⟨sendToConnection_absent s connId msg h,
    fun other => errNotMaintained_ne_errSendFailed connId other,
    fun other => errNotMaintained_injective connId other⟩

/-- Witness of C3: a delivery to the unregistered `c2`. -/
theorem sendToConnection_unknown_connection_witness :
    demoServer.clients "c2" = none ∧
    demoServer.SendToConnection "c2" "hello" =
      .ok (demoServer, some (errNotMaintained "c2")) ∧
    (∀ other, errNotMaintained "c2" ≠ errSendFailed other) ∧
    (∀ other, errNotMaintained "c2" = errNotMaintained other → "c2" = other) :=
  ⟨by decide, sendToConnection_unknown_connection demoServer "c2" "hello" (by decide)⟩

theorem sendToConnection_room_frame (s : Server) (connId msg : String) (p : Nat)
    (hp : s.clients connId = some p) (hopen : (s.heap p).send.closed = false)
    (hroom : (s.heap p).send.buf.length < (s.heap p).send.cap) :
    ∃ s1, s.SendToConnection connId msg = .ok (s1, none) ∧ s1.clients = s.clients ∧
      (s1.heap p).send =
        { (s.heap p).send with buf := (s.heap p).send.buf ++ [bytesOf msg] } ∧
      (∀ q, q ≠ p → s1.heap q = s.heap q) ∧
      (s1.heap p).connId = (s.heap p).connId ∧ s1.next = s.next :=
  ⟨_, sendToConnection_room s connId msg p hp hopen hroom, rfl, by simp,
    fun q hq => by simp [Function.update_noteq hq], by simp, rfl⟩

theorem sendAll_room (connId : String) (p : Nat) (msgs : List String) :
    ∀ s : Server, s.clients connId = some p → (s.heap p).send.closed = false →
      (s.heap p).send.buf.length + msgs.length ≤ (s.heap p).send.cap →
      ∃ s', s.sendAll connId msgs = .ok (s', List.replicate msgs.length none) ∧
        s'.clients = s.clients ∧
        (s'.heap p).send =
          { (s.heap p).send with buf := (s.heap p).send.buf ++ msgs.map bytesOf } ∧
        (∀ q, q ≠ p → s'.heap q = s.heap q) ∧
        (s'.heap p).connId = (s.heap p).connId ∧ s'.next = s.next := by
  induction msgs with
  | nil =>
    intro s _ _ _
    exact ⟨s, rfl, rfl, by simp, fun _ _ => rfl, rfl, rfl⟩
  | cons m rest ih =>
    intro s hp hopen hcap
    have hroom : (s.heap p).send.buf.length < (s.heap p).send.cap := by
      simp only [List.length_cons] at hcap; omega
    obtain ⟨s1, hstep, hc1, hs1, hq1, hid1, hn1⟩ :=
      sendToConnection_room_frame s connId m p hp hopen hroom
    obtain ⟨s', h1, h2, h3, h4, h5, h6⟩ :=
      ih s1 (by rw [hc1]; exact hp) (by rw [hs1]; exact hopen)
        (by rw [hs1]; simp only [List.length_append, List.length_cons, List.length_nil] at hcap ⊢
            omega)
    refine ⟨s', ?_, ?_, ?_, ?_, by rw [h5, hid1], by rw [h6, hn1]⟩
    · simp only [Server.sendAll, hstep, h1, List.length_cons, List.replicate_succ]
    · rw [h2, hc1]
    · rw [h3, hs1]; simp
    · intro q hq; rw [h4 q hq, hq1 q hq]

/-- C4: for a registered connection id whose open mailbox holds `q` payloads with
capacity `cap`, `n` consecutive `SendToConnection` calls with `q + n ≤ cap` all return no
error, leave the registry unchanged and leave the mailbox equal to its previous contents
followed by the `n` payloads in the order of the calls. -/
theorem sendToConnection_fifo (s : Server) (connId : String) (p : Nat) (msgs : List String)
    (hp : s.clients connId = some p) (hopen : (s.heap p).send.closed = false)
    (hcap : (s.heap p).send.buf.length + msgs.length ≤ (s.heap p).send.cap) :
    ∃ s', s.sendAll connId msgs = .ok (s', List.replicate msgs.length none) ∧
      s'.clients = s.clients ∧
      (s'.heap p).send.buf = (s.heap p).send.buf ++ msgs.map bytesOf ∧
      (s'.heap p).send.cap = (s.heap p).send.cap ∧
      (s'.heap p).send.closed = false ∧
      (∀ q, q ≠ p → s'.heap q = s.heap q) := by
  obtain ⟨s', h1, h2, h3, h4, _⟩ := sendAll_room connId p msgs s hp hopen hcap
  exact ⟨s', h1, h2, by rw [h3], by rw [h3], by rw [h3]; exact hopen, h4⟩

/-- Witness of C4: three deliveries to `c1`, whose mailbox is empty with capacity 1024. -/
theorem sendToConnection_fifo_witness :
    demoServer.clients "c1" = some 0 ∧ (demoServer.heap 0).send.closed = false ∧
    (demoServer.heap 0).send.buf.length + ["a", "b", "c"].length
      ≤ (demoServer.heap 0).send.cap ∧
    ∃ s', demoServer.sendAll "c1" ["a", "b", "c"] = .ok (s', [none, none, none]) ∧
      s'.clients = demoServer.clients ∧
      (s'.heap 0).send.buf = [bytesOf "a", bytesOf "b", bytesOf "c"] := by
  have h1 : demoServer.clients "c1" = some 0 := by decide
  have h2 : (demoServer.heap 0).send.closed = false := by decide
  have h3 : (demoServer.heap 0).send.buf.length + ["a", "b", "c"].length
      ≤ (demoServer.heap 0).send.cap := by decide
  obtain ⟨s', hs, hc, hbuf, _⟩ :=
    sendToConnection_fifo demoServer "c1" 0 ["a", "b", "c"] h1 h2 h3
  exact ⟨h1, h2, h3, s', hs, hc, by rw [hbuf]; rfl⟩

/-! ## The coordinator's unregister step -/

theorem unregister_absent (s : Server) (p : Nat)
    (h : s.clients (s.heap p).connId = none) :
    s.handleClients (.unregister p) =
      .ok { s with rpcLog := s.rpcLog ++ [offlineCall (s.heap p) s.GetRpcAddr] } := by
  simp [Server.handleClients, Server.SuccessRpc, offlineCall, h]

theorem unregister_present (s : Server) (p q : Nat)
    (h : s.clients (s.heap p).connId = some q) (hopen : (s.heap p).send.closed = false) :
    s.handleClients (.unregister p) =
      .ok { s with
            rpcLog := s.rpcLog ++ [offlineCall (s.heap p) s.GetRpcAddr]
            clients := Function.update s.clients (s.heap p).connId none
            heap := Function.update s.heap p
              { (s.heap p) with
                send := { (s.heap p).send with closed := true }
                conn := { (s.heap p).conn with closed := true } } } := by
  simp [Server.handleClients, Server.SuccessRpc, offlineCall, h, Client.Close, Chan.close,
    hopen]

theorem unregister_closed (s : Server) (p q : Nat)
    (h : s.clients (s.heap p).connId = some q) (hclosed : (s.heap p).send.closed = true) :
    s.handleClients (.unregister p) = .error .closeOfClosedChannel := by
  simp [Server.handleClients, Server.SuccessRpc, h, Client.Close, Chan.close, hclosed]

/-- What an unregister step that returns does, from a state that satisfies the
invariant. -/
theorem unregister_ok (s s1 : Server) (p : Nat) (hinv : RegistryInv s)
    (h : s.handleClients (.unregister p) = .ok s1) :
    RegistryInv s1 ∧ s1.clients (s.heap p).connId = none ∧
      (∀ id, id ≠ (s.heap p).connId → s1.clients id = s.clients id) ∧
      (∀ q, (s1.heap q).connId = (s.heap q).connId ∧ (s1.heap q).info = (s.heap q).info) ∧
      (∀ q, q ≠ p → s1.heap q = s.heap q) ∧
      s1.rpcLog = s.rpcLog ++ [offlineCall (s.heap p) s.GetRpcAddr] ∧
      s1.GetRpcAddr = s.GetRpcAddr ∧ s1.next = s.next := by
  cases hq : s.clients (s.heap p).connId with
  | none =>
    rw [unregister_absent s p hq] at h
    cases h
    exact ⟨hinv, hq, fun _ _ => rfl, fun _ => ⟨rfl, rfl⟩, fun _ _ => rfl, rfl, rfl, rfl⟩
  | some q =>
    cases hc : (s.heap p).send.closed with
    | true => rw [unregister_closed s p q hq hc] at h; cases h
    | false =>
      rw [unregister_present s p q hq hc] at h
      cases h
      refine ⟨?_, by simp, fun id hne => by simp [Function.update_noteq hne], ?_,
        fun r hr => by simp [Function.update_noteq hr], rfl, rfl, rfl⟩
      · intro id r hr
        by_cases hid : id = (s.heap p).connId
        · subst hid; simp at hr
        · have hr2 : s.clients id = some r := by simpa [Function.update_noteq hid] using hr
          have hrp : r ≠ p := by
            intro hrp; subst hrp
            exact hid (hinv id r hr2).1.symm
          have := hinv id r hr2
          simpa [Function.update_noteq hrp] using this
      · intro r
        by_cases hr : r = p
        · subst hr; simp
        · simp [Function.update_noteq hr]

/-- An unregister step returns when the entry under the session's id, if any, is the
session itself. -/
theorem unregister_returns (s : Server) (p : Nat) (hinv : RegistryInv s)
    (hown : s.ownsEntry p) : ∃ s1, s.handleClients (.unregister p) = .ok s1 := by
  cases hq : s.clients (s.heap p).connId with
  | none => exact ⟨_, unregister_absent s p hq⟩
  | some q =>
    have hqp : q = p := hown q hq
    subst hqp
    exact ⟨_, unregister_present s q q hq (hinv _ q hq).2.1⟩

/-- C5: processing an unregister event for the same session twice in a row gives the
same registry and the same sessions as processing it once: the second event finds the
connection id absent, returns without error and only issues its `offline` call, deleting
and closing nothing.  The first event returns whenever the id is absent or the session's
mailbox is open. -/
theorem unregister_idempotent (s : Server) (p : Nat) :
    (∀ s1, s.handleClients (.unregister p) = .ok s1 →
      s1.clients (s1.heap p).connId = none ∧
      s1.handleClients (.unregister p) =
        .ok { s1 with rpcLog := s1.rpcLog ++ [offlineCall (s1.heap p) s1.GetRpcAddr] } ∧
      ∃ s2, s.handleClientsLoop [.unregister p, .unregister p] = .ok s2 ∧
        s2.clients = s1.clients ∧ s2.heap = s1.heap ∧ s2.next = s1.next) ∧
    (∀ e, s.handleClients (.unregister p) = .error e →
      s.handleClientsLoop [.unregister p, .unregister p] = .error e) ∧
    (s.clients (s.heap p).connId = none ∨ (s.heap p).send.closed = false →
      ∃ s1, s.handleClients (.unregister p) = .ok s1) := by
  refine ⟨?_, ?_, ?_⟩
  · intro s1 h
    have habs : s1.clients (s1.heap p).connId = none := by
      cases hq : s.clients (s.heap p).connId with
      | none => rw [unregister_absent s p hq] at h; cases h; exact hq
      | some q =>
        cases hc : (s.heap p).send.closed with
        | true => rw [unregister_closed s p q hq hc] at h; cases h
        | false =>
          rw [unregister_present s p q hq hc] at h
          cases h
          show Function.update s.clients (s.heap p).connId none
            (Function.update s.heap p _ p).connId = none
          rw [Function.update_same]
          exact Function.update_same _ _ _
    refine ⟨habs, unregister_absent s1 p habs,
      { s1 with rpcLog := s1.rpcLog ++ [offlineCall (s1.heap p) s1.GetRpcAddr] },
      ?_, rfl, rfl, rfl⟩
    simp [Server.handleClientsLoop, h, unregister_absent s1 p habs]
  · intro e h
    simp [Server.handleClientsLoop, h]
  · intro h
    cases hq : s.clients (s.heap p).connId with
    | none => exact ⟨_, unregister_absent s p hq⟩
    | some q =>
      rcases h with h | h
      · rw [hq] at h; cases h
      · exact ⟨_, unregister_present s p q hq h⟩

/-- Witness of C5: two unregister events for the session of `c1`. -/
theorem unregister_idempotent_witness :
    ∃ s1 s2, demoServer.handleClients (.unregister 0) = .ok s1 ∧
      demoServer.handleClientsLoop [.unregister 0, .unregister 0] = .ok s2 ∧
      s1.clients (s1.heap 0).connId = none ∧
      s2.clients = s1.clients ∧ s2.heap = s1.heap := by
  obtain ⟨h1, _, h3⟩ := unregister_idempotent demoServer 0
  obtain ⟨s1, hs1⟩ := h3 (Or.inr (by decide))
  obtain ⟨habs, _, s2, hs2, hc, hh, _⟩ := h1 s1 hs1
  exact ⟨s1, s2, hs1, hs2, habs, hc, hh⟩

/-! ## The coordinator processing a list of unregister requests -/

theorem unregisterLoop (ps : List Nat) :
    ∀ s : Server, RegistryInv s → (∀ p, p ∈ ps → s.ownsEntry p) →
      ∃ s', s.handleClientsLoop (ps.map Event.unregister) = .ok s' ∧ RegistryInv s' ∧
        (∀ p, p ∈ ps → s'.clients (s.heap p).connId = none) ∧
        (∀ id, s'.clients id = s.clients id ∨
          (s'.clients id = none ∧ ∃ p, p ∈ ps ∧ (s.heap p).connId = id)) ∧
        (∀ q, (s'.heap q).connId = (s.heap q).connId ∧ (s'.heap q).info = (s.heap q).info) ∧
        s'.rpcLog = s.rpcLog ++ ps.map (fun p => offlineCall (s.heap p) s.GetRpcAddr) ∧
        s'.GetRpcAddr = s.GetRpcAddr ∧ s'.next = s.next := by
  induction ps with
  | nil =>
    intro s hinv _
    exact ⟨s, rfl, hinv, fun _ h => absurd h (List.not_mem_nil _), fun _ => Or.inl rfl,
      fun _ => ⟨rfl, rfl⟩, by simp, rfl, rfl⟩
  | cons p rest ih =>
    intro s hinv hown
    obtain ⟨s1, hs1⟩ := unregister_returns s p hinv (hown p (List.mem_cons_self _ _))
    obtain ⟨hinv1, hdel, hkeep, hids, _, hlog, haddr, hnext⟩ := unregister_ok s s1 p hinv hs1
    have hshrink : ∀ id, s1.clients id = s.clients id ∨
        (s1.clients id = none ∧ id = (s.heap p).connId) := by
      intro id
      by_cases hid : id = (s.heap p).connId
      · right; exact ⟨by rw [hid]; exact hdel, hid⟩
      · left; exact hkeep id hid
    have hown1 : ∀ r, r ∈ rest → s1.ownsEntry r := by
      intro r hr q hq
      rw [(hids r).1] at hq
      rcases hshrink (s.heap r).connId with h | ⟨h, _⟩
      · rw [h] at hq; exact hown r (List.mem_cons_of_mem _ hr) q hq
      · rw [h] at hq; cases hq
    obtain ⟨s', hloop, hinv', hdel', hshrink', hids', hlog', haddr', hnext'⟩ :=
      ih s1 hinv1 hown1
    refine ⟨s', ?_, hinv', ?_, ?_, ?_, ?_, by rw [haddr', haddr], by rw [hnext', hnext]⟩
    · simp only [List.map_cons, Server.handleClientsLoop, hs1, hloop]
    · intro r hr
      rcases List.mem_cons.mp hr with rfl | hr
      · rcases hshrink' (s.heap r).connId with h | ⟨h, _⟩
        · rw [h]; exact hdel
        · exact h
      · have := hdel' r hr
        rwa [(hids r).1] at this
    · intro id
      rcases hshrink' id with h | ⟨h, r, hr, hrid⟩
      · rcases hshrink id with h2 | ⟨h2, h3⟩
        · left; rw [h, h2]
        · right; exact ⟨by rw [h, h2], p, List.mem_cons_self _ _, h3.symm⟩
      · right
        exact ⟨h, r, List.mem_cons_of_mem _ hr, by rw [← (hids r).1]; exact hrid⟩
    · intro q
      exact ⟨by rw [(hids' q).1, (hids q).1], by rw [(hids' q).2, (hids q).2]⟩
    · rw [hlog', hlog, haddr, List.map_cons, List.append_assoc, List.singleton_append]
      congr 2
      apply List.map_congr_left
      intro r _
      simp only [offlineCall, (hids r).1, (hids r).2]

/-- The coordinator processing any list of unregister requests for sessions that are
registered in `s`, whatever their order and however often a session occurs: it returns,
issues one `offline` call per request, removes the entry of every requested session and
leaves every other entry as it was. -/
theorem unregister_registered (s : Server) (reqs : List Nat) (hinv : RegistryInv s)
    (hreg : ∀ p, p ∈ reqs → ∃ connId, s.clients connId = some p) :
    ∃ s', s.handleClientsLoop (reqs.map Event.unregister) = .ok s' ∧ RegistryInv s' ∧
      s'.rpcLog = s.rpcLog ++ reqs.map (fun p => offlineCall (s.heap p) s.GetRpcAddr) ∧
      s'.next = s.next ∧
      (∀ connId p, s.clients connId = some p → p ∈ reqs → s'.clients connId = none) ∧
      (∀ connId, (∀ p, p ∈ reqs → s.clients connId ≠ some p) →
        s'.clients connId = s.clients connId) ∧
      (∀ connId, s'.clients connId = s.clients connId ∨ s'.clients connId = none) := by
  have hown : ∀ p, p ∈ reqs → s.ownsEntry p := by
    intro p hp q hq
    obtain ⟨connId, hc⟩ := hreg p hp
    rw [(hinv connId p hc).1, hc] at hq
    exact (Option.some.inj hq).symm
  obtain ⟨s', hloop, hinv', hdel, hshrink, _, hlog, _, hnext⟩ := unregisterLoop reqs s hinv hown
  refine ⟨s', hloop, hinv', hlog, hnext, ?_, ?_, ?_⟩
  · intro connId p hp hin
    have := hdel p hin
    rwa [(hinv connId p hp).1] at this
  · intro connId hno
    rcases hshrink connId with h | ⟨h, p, hp, hid⟩
    · exact h
    · obtain ⟨c, hc⟩ := hreg p hp
      have hcc : c = connId := by rw [← (hinv c p hc).1]; exact hid
      subst hcc
      exact absurd hc (hno p hp)
  · intro connId
    rcases hshrink connId with h | ⟨h, _⟩
    · exact Or.inl h
    · exact Or.inr h

/-! ## `KickConnections` run against the coordinator -/

theorem handleClientsLoop_append (evs1 evs2 : List Event) :
    ∀ s s1 : Server, s.handleClientsLoop evs1 = .ok s1 →
      s.handleClientsLoop (evs1 ++ evs2) = s1.handleClientsLoop evs2 := by
  induction evs1 with
  | nil =>
    intro s s1 h
    cases h
    rfl
  | cons ev rest ih =>
    intro s s1 h
    simp only [Server.handleClientsLoop, List.cons_append] at h ⊢
    split at h
    · cases h
    · exact ih _ s1 h

theorem filterMap_congr_mem {α β : Type} (f g : α → Option β) (l : List α)
    (h : ∀ a, a ∈ l → f a = g a) : l.filterMap f = l.filterMap g := by
  induction l with
  | nil => rfl
  | cons a rest ih =>
    simp only [List.filterMap_cons, h a (List.mem_cons_self _ _),
      ih (fun b hb => h b (List.mem_cons_of_mem _ hb))]

theorem filterMap_shrink_sublist {α β : Type} (f g : α → Option β) (l : List α)
    (h : ∀ a, f a = g a ∨ f a = none) : (l.filterMap f).Sublist (l.filterMap g) := by
  induction l with
  | nil => exact List.Sublist.refl _
  | cons a rest ih =>
    rcases h a with h1 | h1
    · cases hg : g a with
      | none =>
        rw [List.filterMap_cons_none (h1.trans hg), List.filterMap_cons_none hg]
        exact ih
      | some b =>
        rw [List.filterMap_cons_some (h1.trans hg), List.filterMap_cons_some hg]
        exact List.Sublist.cons₂ b ih
    · rw [List.filterMap_cons_none h1]
      cases hg : g a with
      | none => rw [List.filterMap_cons_none hg]; exact ih
      | some b => rw [List.filterMap_cons_some hg]; exact List.Sublist.cons b ih

theorem ownsEntry_of_registered (s : Server) (hinv : RegistryInv s) (connId : String)
    (p : Nat) (hp : s.clients connId = some p) : s.ownsEntry p := by
  intro q hq
  rw [(hinv connId p hp).1, hp] at hq
  exact (Option.some.inj hq).symm

/-- The coordinator catching up on the request it holds, from a state that satisfies the
invariant: it returns, what it processed is the request or nothing, and the only entry it
can remove is the one of that request. -/
theorem catchUp_spec (s : Server) (pending : Option Nat) (b : Bool) (hinv : RegistryInv s)
    (hown : ∀ q, pending = some q → s.ownsEntry q) :
    ∃ s1 pending1 d, s.catchUp pending b = .ok (s1, pending1) ∧
      pending.toList = d ++ pending1.toList ∧
      s.handleClientsLoop (d.map Event.unregister) = .ok s1 ∧
      RegistryInv s1 ∧ (b = true → pending1 = none) ∧
      (∀ q, pending1 = some q → pending = some q) ∧
      (∀ id, s1.clients id = s.clients id ∨
        (s1.clients id = none ∧ ∃ q, pending = some q ∧ (s.heap q).connId = id)) ∧
      (∀ r, (s1.heap r).connId = (s.heap r).connId) := by
  cases pending with
  | none =>
    refine ⟨s, none, [], rfl, rfl, rfl, hinv, fun _ => rfl, ?_, fun _ => Or.inl rfl,
      fun _ => rfl⟩
    intro q hq
    exact hq
  | some q =>
    cases b with
    | false =>
      refine ⟨s, some q, [], rfl, rfl, rfl, hinv, ?_, ?_, fun _ => Or.inl rfl,
        fun _ => rfl⟩
      · intro h
        cases h
      · intro r hr
        exact hr
    | true =>
      obtain ⟨s1, hs1⟩ := unregister_returns s q hinv (hown q rfl)
      obtain ⟨hinv1, hdel, hkeep, hids, _, _, _, _⟩ := unregister_ok s s1 q hinv hs1
      refine ⟨s1, none, [q], ?_, rfl, ?_, hinv1, fun _ => rfl, ?_, ?_,
        fun r => (hids r).1⟩
      · simp only [Server.catchUp, hs1, if_true]
      · simp only [List.map_cons, List.map_nil, Server.handleClientsLoop, hs1]
      · intro r hr
        cases hr
      · intro k
        by_cases hk : k = (s.heap q).connId
        · right; exact ⟨by rw [hk]; exact hdel, q, rfl, hk.symm⟩
        · left; exact hkeep k hk

theorem ownsEntry_shrink (s s1 : Server) (r : Nat)
    (hshrink : ∀ id, s1.clients id = s.clients id ∨ s1.clients id = none)
    (hids : ∀ q, (s1.heap q).connId = (s.heap q).connId) (h : s.ownsEntry r) :
    s1.ownsEntry r := by
  intro q hq
  rw [hids r] at hq
  rcases hshrink (s.heap r).connId with h1 | h1
  · rw [h1] at hq; exact h q hq
  · rw [h1] at hq; cases hq

/-- The loop of `KickConnections` against the coordinator, under any schedule, from a
state that satisfies the invariant: it returns; the state at the end is the initial state
after the coordinator processed the requests it has finished; every client sent is the
session of a listed id registered at the start, the session of every listed id registered
at the start is sent (or is the request already held), and for pairwise distinct ids the
clients sent are exactly the registered sessions of the listed ids, in order. -/
theorem kickLoop_run (ids : List String) :
    ∀ (sched : List Bool) (pending : Option Nat) (s : Server), RegistryInv s →
      (∀ q, pending = some q → s.ownsEntry q) →
      ∃ s' pending' reqs done,
        Server.kickLoop ids sched pending s = .ok (s', pending', reqs) ∧
        pending.toList ++ reqs = done ++ pending'.toList ∧
        s.handleClientsLoop (done.map Event.unregister) = .ok s' ∧
        (∀ p, p ∈ reqs → ∃ id, id ∈ ids ∧ s.clients id = some p) ∧
        (∀ id, id ∈ ids → ∀ p, s.clients id = some p → p ∈ pending.toList ++ reqs) ∧
        (ids.Nodup → (∀ q, pending = some q → (s.heap q).connId ∉ ids) →
          reqs = ids.filterMap s.clients) ∧
        reqs.Sublist (ids.filterMap s.clients) := by
  induction ids with
  | nil =>
    intro sched pending s _ _
    exact ⟨s, pending, [], [], rfl, by simp, rfl, fun _ h => absurd h (List.not_mem_nil _),
      fun _ h => absurd h (List.not_mem_nil _), fun _ _ => rfl, List.Sublist.refl _⟩
  | cons connId rest ih =>
    intro sched pending s hinv hown
    obtain ⟨s1, pending1, d1, hc1, hl1, hd1, hinv1, _, hsub1, hshrink1, hids1⟩ :=
      catchUp_spec s pending (sched.headD true) hinv hown
    have hweak1 : ∀ k, s1.clients k = s.clients k ∨ s1.clients k = none := fun k =>
      (hshrink1 k).imp (fun h => h) (fun h => h.1)
    have hown1 : ∀ q, pending1 = some q → s1.ownsEntry q := fun q hq =>
      ownsEntry_shrink s s1 q hweak1 hids1 (hown q (hsub1 q hq))
    -- an entry the catch-up removed held the pending request
    have hgone1 : ∀ id p, s.clients id = some p → s1.clients id = none →
        p ∈ pending.toList := by
      intro id p hp hnone
      rcases hshrink1 id with h | ⟨_, q, hq, hqid⟩
      · rw [h, hp] at hnone; cases hnone
      · have := hown q hq p (by rw [hqid]; exact hp)
        rw [hq, this]; simp
    cases hlook : s1.clients connId with
    | none =>
      obtain ⟨s', pending', reqs, done, hk, hl, hd, hM1, hM2, hN, hS⟩ :=
        ih sched.tail pending1 s1 hinv1 hown1
      refine ⟨s', pending', reqs, d1 ++ done, ?_, ?_, ?_, ?_, ?_, ?_, ?_⟩
      · simp only [Server.kickLoop, hc1, hlook, hk]
      · rw [hl1, List.append_assoc, hl, List.append_assoc]
      · rw [List.map_append, handleClientsLoop_append _ _ s s1 hd1]
        exact hd
      · intro p hp
        obtain ⟨id, hid, hidp⟩ := hM1 p hp
        refine ⟨id, List.mem_cons_of_mem _ hid, ?_⟩
        rcases hweak1 id with h | h
        · rw [← h]; exact hidp
        · rw [h] at hidp; cases hidp
      · intro id hid p hp
        have hcase : s1.clients id = some p ∨ s1.clients id = none := by
          rcases hweak1 id with h | h
          · left; rw [h]; exact hp
          · right; exact h
        rcases hcase with h1 | h1
        · rcases List.mem_cons.mp hid with rfl | hidr
          · rw [hlook] at h1; cases h1
          · have := hM2 id hidr p h1
            rcases List.mem_append.mp this with h2 | h2
            · have : pending1 = some p := by
                cases pending1 with
                | none => simp at h2
                | some q => simp at h2; rw [h2]
              rw [hsub1 p this]; simp
            · exact List.mem_append_right _ h2
        · exact List.mem_append_left _ (hgone1 id p hp h1)
      · intro hnd hfresh
        obtain ⟨hnotin, hndr⟩ := List.nodup_cons.mp hnd
        have hsame : ∀ id, id ∈ connId :: rest → s1.clients id = s.clients id := by
          intro id hid
          rcases hshrink1 id with h | ⟨_, q, hq, hqid⟩
          · exact h
          · have hmem : (s.heap q).connId ∈ connId :: rest := by
              rw [hqid]; exact hid
            exact absurd hmem (hfresh q hq)
        have hnone : s.clients connId = none := by
          rw [← hsame connId (List.mem_cons_self _ _)]; exact hlook
        rw [List.filterMap_cons_none hnone]
        rw [hN hndr (fun q hq hmem => hfresh q (hsub1 q hq)
          (List.mem_cons_of_mem _ (by rw [← hids1 q]; exact hmem)))]
        exact filterMap_congr_mem _ _ rest
          (fun id hid => hsame id (List.mem_cons_of_mem _ hid))
      · have h1 := hS.trans (filterMap_shrink_sublist s1.clients s.clients rest hweak1)
        cases hg : s.clients connId with
        | none => rw [List.filterMap_cons_none hg]; exact h1
        | some b => rw [List.filterMap_cons_some hg]; exact List.Sublist.cons b h1
    | some client =>
      obtain ⟨s2, pending2, d2, hc2, hl2, hd2, hinv2, hnone2, _, hshrink2, hids2⟩ :=
        catchUp_spec s1 pending1 true hinv1 hown1
      have hp2 : pending2 = none := hnone2 rfl
      subst hp2
      have hweak2 : ∀ k, s2.clients k = s1.clients k ∨ s2.clients k = none := fun k =>
        (hshrink2 k).imp (fun h => h) (fun h => h.1)
      have hownc1 : s1.ownsEntry client := ownsEntry_of_registered s1 hinv1 connId client hlook
      have hownc : ∀ q, some client = some q → s2.ownsEntry q := by
        intro q hq
        cases hq
        exact ownsEntry_shrink s1 s2 client hweak2 hids2 hownc1
      obtain ⟨s', pending', reqs, done, hk, hl, hd, hM1, hM2, hN, hS⟩ :=
        ih sched.tail (some client) s2 hinv2 hownc
      -- an entry removed up to here held the pending request
      have hweak12 : ∀ id, s2.clients id = s.clients id ∨ s2.clients id = none := by
        intro id
        rcases hweak2 id with h | h
        · rcases hweak1 id with h1 | h1
          · left; rw [h, h1]
          · right; rw [h, h1]
        · right; exact h
      have hgone12 : ∀ id p, s.clients id = some p → s2.clients id = none →
          p ∈ pending.toList := by
        intro id p hp hnone
        rcases hweak1 id with h1 | h1
        · rcases hshrink2 id with h | ⟨_, q, hq, hqid⟩
          · rw [h, h1, hp] at hnone; cases hnone
          · have hq0 := hsub1 q hq
            have := hown q hq0 p (by rw [← hids1 q, hqid]; exact hp)
            rw [hq0, this]; simp
        · exact hgone1 id p hp h1
      have hclient : s.clients connId = some client := by
        rcases hweak1 connId with h | h
        · rw [← h]; exact hlook
        · rw [h] at hlook; cases hlook
      refine ⟨s', pending', client :: reqs, d1 ++ d2 ++ done, ?_, ?_, ?_, ?_, ?_, ?_, ?_⟩
      · simp only [Server.kickLoop, hc1, hlook, hc2, hk]
      · have hl' : client :: reqs = done ++ pending'.toList := by simpa using hl
        have hl2' : pending1.toList = d2 := by simpa using hl2
        rw [hl1, hl2', hl', List.append_assoc, List.append_assoc, List.append_assoc]
      · rw [List.map_append, List.map_append,
          handleClientsLoop_append _ _ s s2
            (by rw [handleClientsLoop_append _ _ s s1 hd1]; exact hd2)]
        exact hd
      · intro p hp
        rcases List.mem_cons.mp hp with rfl | hpr
        · exact ⟨connId, List.mem_cons_self _ _, hclient⟩
        · obtain ⟨id, hid, hidp⟩ := hM1 p hpr
          refine ⟨id, List.mem_cons_of_mem _ hid, ?_⟩
          rcases hweak12 id with h | h
          · rw [← h]; exact hidp
          · rw [h] at hidp; cases hidp
      · intro id hid p hp
        rcases List.mem_cons.mp hid with rfl | hidr
        · rw [hclient] at hp
          cases hp
          exact List.mem_append_right _ (List.mem_cons_self _ _)
        · rcases hweak12 id with h | h
          · have := hM2 id hidr p (by rw [h]; exact hp)
            exact List.mem_append_right _ (by simpa using this)
          · exact List.mem_append_left _ (hgone12 id p hp h)
      · intro hnd hfresh
        obtain ⟨hnotin, hndr⟩ := List.nodup_cons.mp hnd
        have hsame : ∀ id, id ∈ connId :: rest → s2.clients id = s.clients id := by
          intro id hid
          rcases hshrink1 id with h1 | ⟨_, q, hq, hqid⟩
          · rcases hshrink2 id with h | ⟨_, q, hq, hqid⟩
            · rw [h, h1]
            · have hmem : (s.heap q).connId ∈ connId :: rest := by
                rw [← hids1 q, hqid]; exact hid
              exact absurd hmem (hfresh q (hsub1 q hq))
          · have hmem : (s.heap q).connId ∈ connId :: rest := by
              rw [hqid]; exact hid
            exact absurd hmem (hfresh q hq)
        rw [List.filterMap_cons_some hclient]
        have hcid : (s2.heap client).connId = connId := by
          rw [hids2 client]; exact (hinv1 connId client hlook).1
        rw [hN hndr (fun q hq => by cases hq; rw [hcid]; exact hnotin)]
        congr 1
        exact filterMap_congr_mem _ _ rest
          (fun id hid => hsame id (List.mem_cons_of_mem _ hid))
      · rw [List.filterMap_cons_some hclient]
        exact List.Sublist.cons₂ client
          (hS.trans (filterMap_shrink_sublist s2.clients s.clients rest hweak12))

/-- `KickConnections` against the coordinator under any schedule, from a state that
satisfies the invariant. -/
theorem kickConnections_run (s : Server) (connections : List String) (sched : List Bool)
    (hinv : RegistryInv s) :
    ∃ s1 pending reqs done,
      s.KickConnections connections sched = .ok (s1, pending, reqs, none) ∧
      reqs = done ++ pending.toList ∧
      s.handleClientsLoop (done.map Event.unregister) = .ok s1 ∧
      (∀ p, p ∈ reqs → ∃ id, id ∈ connections ∧ s.clients id = some p) ∧
      (∀ id, id ∈ connections → ∀ p, s.clients id = some p → p ∈ reqs) ∧
      (connections.Nodup → reqs = connections.filterMap s.clients) ∧
      reqs.Sublist (connections.filterMap s.clients) ∧
      RegistryInv s1 ∧ s1.next = s.next ∧
      (∀ id, s1.clients id = s.clients id ∨ s1.clients id = none) := by
  obtain ⟨s1, pending, reqs, done, hk, hl, hd, hM1, hM2, hN, hS⟩ :=
    kickLoop_run connections sched none s hinv (fun _ h => by cases h)
  have hl' : reqs = done ++ pending.toList := by simpa using hl
  obtain ⟨s2, hd2, hinv2, _, hnext2, _, _, hshrink2⟩ :=
    unregister_registered s done hinv (fun p hp => by
      obtain ⟨id, _, hid⟩ := hM1 p (by rw [hl']; exact List.mem_append_left _ hp)
      exact ⟨id, hid⟩)
  rw [hd] at hd2
  cases hd2
  refine ⟨s1, pending, reqs, done, ?_, hl', hd, hM1, ?_, ?_, hS, hinv2, hnext2, hshrink2⟩
  · simp only [Server.KickConnections, hk]
  · intro id hid p hp
    simpa using hM2 id hid p hp
  · intro hnd
    exact hN hnd (fun _ h => by cases h)

/-- C6: from a state that satisfies the registry invariant and under every schedule of
the coordinator, `KickConnections` returns no error; it sends on `unregister` the
session of every listed id that is in the registry and nothing for an id that is not,
at most one request per listed entry, and for pairwise distinct ids exactly one request
each, in list order.  Once the coordinator has processed the request it still holds, it
has processed exactly the requests sent, one `offline` call per request has been issued,
carrying the kicked id, no kicked id is in the registry, and a delivery to a kicked id
fails with the unknown-connection error. -/
theorem kickConnections_deregisters (s : Server) (connections : List String)
    (sched : List Bool) (hinv : RegistryInv s) :
    ∃ s1 pending reqs,
      s.KickConnections connections sched = .ok (s1, pending, reqs, none) ∧
      (∀ p, p ∈ reqs → ∃ connId, connId ∈ connections ∧ s.clients connId = some p) ∧
      (∀ connId, connId ∈ connections → ∀ p, s.clients connId = some p → p ∈ reqs) ∧
      reqs.Sublist (connections.filterMap s.clients) ∧
      (connections.Nodup → reqs = connections.filterMap s.clients) ∧
      ∃ s', s1.catchUp pending true = .ok (s', none) ∧
        s.handleClientsLoop (reqs.map Event.unregister) = .ok s' ∧
        s'.rpcLog = s.rpcLog ++ reqs.map (fun p => offlineCall (s.heap p) s.GetRpcAddr) ∧
        ∀ connId, connId ∈ connections → ∀ p, s.clients connId = some p →
          offlineCall (s.heap p) s.GetRpcAddr ∈ s'.rpcLog ∧
          (offlineCall (s.heap p) s.GetRpcAddr).args.head? = some connId ∧
          s'.clients connId = none ∧
          ∀ msg, s'.SendToConnection connId msg
            = .ok (s', some (errNotMaintained connId)) := by
  obtain ⟨s1, pending, reqs, done, hk, hl, hd, hM1, hM2, hN, hS, _, _, _⟩ :=
    kickConnections_run s connections sched hinv
  obtain ⟨s', hloop, _, hlog, _, hdel, _, _⟩ :=
    unregister_registered s reqs hinv (fun p hp => (hM1 p hp).imp fun _ h => h.2)
  have hrest : s1.handleClientsLoop (pending.toList.map Event.unregister) = .ok s' := by
    rw [← handleClientsLoop_append _ _ s s1 hd, ← List.map_append, ← hl]
    exact hloop
  refine ⟨s1, pending, reqs, hk, hM1, hM2, hS, hN, s', ?_, hloop, hlog, ?_⟩
  · cases pending with
    | none =>
      simp only [Option.toList_none, List.map_nil, Server.handleClientsLoop] at hrest
      cases hrest
      rfl
    | some q =>
      simp only [Option.toList_some, List.map_cons, List.map_nil,
        Server.handleClientsLoop] at hrest
      simp only [Server.catchUp, if_true]
      split at hrest
      · cases hrest
      · cases hrest
        rfl
  · intro connId hc p hp
    have hin : p ∈ reqs := hM2 connId hc p hp
    have hgone : s'.clients connId = none := hdel connId p hp hin
    refine ⟨?_, ?_, hgone, fun msg => sendToConnection_absent s' connId msg hgone⟩
    · rw [hlog]
      exact List.mem_append_right _ (List.mem_map_of_mem _ hin)
    · simp [offlineCall, (hinv connId p hp).1]

/-- Witness of C6: the scenario `KickConnections(["c1"])` on a registered `c1`, and the
requests sent for lists with a repeated id.  For `["c1","c3","c1"]` the coordinator has
finished the request of `c1` before the third lookup under every schedule, so two
requests are sent and two `offline` calls issued; for `["c1","c1"]` one or two requests
are sent, as the coordinator has or has not finished the first when `c1` is looked up
again. -/
theorem kickConnections_deregisters_witness :
    RegistryInv demoServer ∧
    (∃ s1 pending s', demoServer.KickConnections ["c1"] [] = .ok (s1, pending, [0], none) ∧
      s1.catchUp pending true = .ok (s', none) ∧
      s'.rpcLog =
        [{ cls := "Im", method := "offline", args := ["c1", "i1", "127.0.0.1:8901"] }] ∧
      s'.clients "c1" = none ∧
      s'.SendToConnection "c1" "hello" = .ok (s', some (errNotMaintained "c1"))) ∧
    (∀ sched, ∃ s1 pending s',
      demoServer.KickConnections ["c1", "c3", "c1"] sched
        = .ok (s1, pending, [0, 1], none) ∧
      s1.catchUp pending true = .ok (s', none) ∧
      s'.rpcLog =
        [{ cls := "Im", method := "offline", args := ["c1", "i1", "127.0.0.1:8901"] },
         { cls := "Im", method := "offline", args := ["c3", "i3", "127.0.0.1:8901"] }] ∧
      s'.clients "c1" = none ∧ s'.clients "c3" = none) ∧
    (∃ s1 pending,
      demoServer.KickConnections ["c1", "c1"] [true, true] = .ok (s1, pending, [0], none)) ∧
    (∃ s1 pending,
      demoServer.KickConnections ["c1", "c1"] [true, false]
        = .ok (s1, pending, [0, 0], none)) := by
  refine ⟨demoServer_inv, ?_, ?_, ⟨_, _, rfl⟩, ⟨_, _, rfl⟩⟩
  · obtain ⟨s1, pending, reqs, hk, _, _, _, hN, s', hc, _, hlog, hall⟩ :=
      kickConnections_deregisters demoServer ["c1"] [] demoServer_inv
    have hreqs : reqs = [0] := by rw [hN (by decide)]; decide
    subst hreqs
    obtain ⟨_, _, hgone, hsend⟩ := hall "c1" (by decide) 0 (by decide)
    exact ⟨s1, pending, s', hk, hc, by rw [hlog]; decide, hgone, hsend "hello"⟩
  · intro sched
    have hev : ∃ s1 pending,
        demoServer.KickConnections ["c1", "c3", "c1"] sched
          = .ok (s1, pending, [0, 1], none) := by
      rcases sched with _ | ⟨b1, _ | ⟨b2, _ | ⟨b3, t⟩⟩⟩
      · exact ⟨_, _, rfl⟩
      · cases b1 <;> exact ⟨_, _, rfl⟩
      · cases b1 <;> cases b2 <;> exact ⟨_, _, rfl⟩
      · cases b1 <;> cases b2 <;> cases b3 <;> exact ⟨_, _, rfl⟩
    obtain ⟨s1, pending, reqs, hk, _, _, _, _, s', hc, _, hlog, hall⟩ :=
      kickConnections_deregisters demoServer ["c1", "c3", "c1"] sched demoServer_inv
    obtain ⟨t1, t2, hev⟩ := hev
    rw [hk] at hev
    cases hev
    exact ⟨s1, pending, s', hk, hc, by rw [hlog]; decide,
      (hall "c1" (by decide) 0 (by decide)).2.2.1,
      (hall "c3" (by decide) 1 (by decide)).2.2.1⟩

/-! ## Handshake -/

theorem checkToken_missing (s : Server) (unmarshal : String → Option TokenInfo)
    (query : String → Option (List String))
    (h : query "t" = none ∨ query "t" = some []) :
    s.checkToken unmarshal query = (s, .error "确实参数") := by
  rcases h with h | h <;> simp [Server.checkToken, h]

theorem checkToken_unparseable (s : Server) (unmarshal : String → Option TokenInfo)
    (query : String → Option (List String)) (t : String) (rest : List String)
    (h : query "t" = some (t :: rest)) (hu : unmarshal t = none) :
    s.checkToken unmarshal query = (s, .error "消息体异常, 不能解析") := by
  simp [Server.checkToken, h, hu]

theorem checkToken_refused (s : Server) (unmarshal : String → Option TokenInfo)
    (query : String → Option (List String)) (t : String) (rest : List String)
    (tokenInfo : TokenInfo) (e : String)
    (h : query "t" = some (t :: rest)) (hu : unmarshal t = some tokenInfo)
    (hr : s.rpcClient (checkTokenCall tokenInfo s.GetRpcAddr) = some e) :
    s.checkToken unmarshal query =
      ({ s with rpcLog := s.rpcLog ++ [checkTokenCall tokenInfo s.GetRpcAddr] },
        .error ("授权失败" ++ e)) := by
  simp only [checkTokenCall] at hr
  simp [Server.checkToken, h, hu, Server.SuccessRpc, hr, checkTokenCall]

theorem checkToken_accepted (s : Server) (unmarshal : String → Option TokenInfo)
    (query : String → Option (List String)) (t : String) (rest : List String)
    (tokenInfo : TokenInfo)
    (h : query "t" = some (t :: rest)) (hu : unmarshal t = some tokenInfo)
    (hr : s.rpcClient (checkTokenCall tokenInfo s.GetRpcAddr) = none) :
    s.checkToken unmarshal query =
      ({ s with rpcLog := s.rpcLog ++ [checkTokenCall tokenInfo s.GetRpcAddr] },
        .ok tokenInfo) := by
  simp only [checkTokenCall] at hr
  simp [Server.checkToken, h, hu, Server.SuccessRpc, hr, checkTokenCall]

/-- The token check leaves the registry, the sessions and the allocation pointer as
they were. -/
theorem checkToken_frame (s : Server) (unmarshal : String → Option TokenInfo)
    (query : String → Option (List String)) :
    (s.checkToken unmarshal query).1.clients = s.clients ∧
    (s.checkToken unmarshal query).1.heap = s.heap ∧
    (s.checkToken unmarshal query).1.next = s.next := by
  unfold Server.checkToken
  split
  · exact ⟨rfl, rfl, rfl⟩
  · exact ⟨rfl, rfl, rfl⟩
  · split
    · exact ⟨rfl, rfl, rfl⟩
    · dsimp only
      split
      · exact ⟨rfl, rfl, rfl⟩
      · exact ⟨rfl, rfl, rfl⟩

/-- C7: the handshake answers Unauthorized when the token parameter is missing, when it
does not decode as a token, and when the `checkToken` call is refused; it answers Bad
Request when the token is accepted and its connection id is still in the registry.
Whenever the answer is not the upgrade, no register request is submitted and the
registry, the sessions and the allocation pointer are unchanged; the handshake itself
never writes the registry. -/
theorem serveWs_rejections (s : Server) (unmarshal : String → Option TokenInfo)
    (r : Request) :
    (r.query "t" = none ∨ r.query "t" = some [] →
      s.serveWs unmarshal r = (s, .httpError StatusUnauthorized, none)) ∧
    (∀ t rest, r.query "t" = some (t :: rest) → unmarshal t = none →
      s.serveWs unmarshal r = (s, .httpError StatusUnauthorized, none)) ∧
    (∀ t rest tokenInfo e, r.query "t" = some (t :: rest) →
      unmarshal t = some tokenInfo →
      s.rpcClient (checkTokenCall tokenInfo s.GetRpcAddr) = some e →
      s.serveWs unmarshal r =
        ({ s with rpcLog := s.rpcLog ++ [checkTokenCall tokenInfo s.GetRpcAddr] },
          .httpError StatusUnauthorized, none)) ∧
    (∀ t rest tokenInfo p, r.query "t" = some (t :: rest) →
      unmarshal t = some tokenInfo →
      s.rpcClient (checkTokenCall tokenInfo s.GetRpcAddr) = none →
      s.clients tokenInfo.ConnId = some p →
      s.serveWs unmarshal r =
        ({ s with rpcLog := s.rpcLog ++ [checkTokenCall tokenInfo s.GetRpcAddr] },
          .httpError StatusBadRequest, none)) ∧
    ((s.serveWs unmarshal r).2.1 ≠ .switchingProtocols →
      (s.serveWs unmarshal r).2.2 = none ∧
      (s.serveWs unmarshal r).1.heap = s.heap ∧
      (s.serveWs unmarshal r).1.next = s.next) ∧
    (s.serveWs unmarshal r).1.clients = s.clients ∧
    StatusUnauthorized = 401 ∧ StatusBadRequest = 400 := by
  refine ⟨?_, ?_, ?_, ?_, ?_, ?_, rfl, rfl⟩
  · intro h
    simp [Server.serveWs, responseWsUnauthorized, checkToken_missing s unmarshal r.query h]
  · intro t rest h hu
    simp [Server.serveWs, responseWsUnauthorized,
      checkToken_unparseable s unmarshal r.query t rest h hu]
  · intro t rest tokenInfo e h hu hr
    simp [Server.serveWs, responseWsUnauthorized,
      checkToken_refused s unmarshal r.query t rest tokenInfo e h hu hr]
  · intro t rest tokenInfo p h hu hr hp
    simp [Server.serveWs, checkToken_accepted s unmarshal r.query t rest tokenInfo h hu hr,
      hp]
  · obtain ⟨_, h2, h3⟩ := checkToken_frame s unmarshal r.query
    unfold Server.serveWs
    split
    · rename_i heq; rw [heq] at h2 h3; intro _; exact ⟨rfl, h2, h3⟩
    · rename_i heq; rw [heq] at h2 h3
      split
      · intro _; exact ⟨rfl, h2, h3⟩
      · split
        · intro _; exact ⟨rfl, h2, h3⟩
        · intro hne; exact absurd rfl hne
  · obtain ⟨h1, _, _⟩ := checkToken_frame s unmarshal r.query
    unfold Server.serveWs
    split
    · rename_i heq; rw [heq] at h1; exact h1
    · rename_i heq; rw [heq] at h1
      split
      · exact h1
      · split
        · exact h1
        · exact h1

/-- Witness of C7: the handshake without a token, with the truncated token
`{"conn_id":"c1"`, with a valid token that the remote service refuses, and with a valid,
accepted token for the registered `c1`. -/
theorem serveWs_rejections_witness :
    (emptyRequest.query "t" = none ∧
      demoServer.serveWs demoUnmarshal emptyRequest
        = (demoServer, .httpError StatusUnauthorized, none)) ∧
    ((demoRequest truncatedToken).query "t" = some [truncatedToken] ∧
      demoUnmarshal truncatedToken = none ∧
      demoServer.serveWs demoUnmarshal (demoRequest truncatedToken)
        = (demoServer, .httpError StatusUnauthorized, none)) ∧
    ((demoRequest validToken).query "t" = some [validToken] ∧
      demoUnmarshal validToken = some c1Token ∧
      refusingServer.rpcClient (checkTokenCall c1Token refusingServer.GetRpcAddr)
        = some "denied" ∧
      refusingServer.serveWs demoUnmarshal (demoRequest validToken)
        = ({ refusingServer with
              rpcLog := refusingServer.rpcLog ++
                [checkTokenCall c1Token refusingServer.GetRpcAddr] },
            .httpError StatusUnauthorized, none)) ∧
    (demoServer.rpcClient (checkTokenCall c1Token demoServer.GetRpcAddr) = none ∧
      demoServer.clients c1Token.ConnId = some 0 ∧
      demoServer.serveWs demoUnmarshal (demoRequest validToken)
        = ({ demoServer with
              rpcLog := demoServer.rpcLog ++ [checkTokenCall c1Token demoServer.GetRpcAddr] },
            .httpError StatusBadRequest, none)) :=
  ⟨⟨rfl, (serveWs_rejections demoServer demoUnmarshal emptyRequest).1 (Or.inl rfl)⟩,
    ⟨by decide, by decide,
      (serveWs_rejections demoServer demoUnmarshal (demoRequest truncatedToken)).2.1
        truncatedToken [] (by decide) (by decide)⟩,
    ⟨by decide, by decide, rfl,
      (serveWs_rejections refusingServer demoUnmarshal (demoRequest validToken)).2.2.1
        validToken [] c1Token "denied" (by decide) (by decide) rfl⟩,
    ⟨rfl, by decide,
      (serveWs_rejections demoServer demoUnmarshal (demoRequest validToken)).2.2.2.1
        validToken [] c1Token 0 (by decide) (by decide) rfl (by decide)⟩⟩

/-! ## The registry invariant is kept by every step -/

theorem sendToConnection_next (s s1 : Server) (connId msg : String) (err : Option String)
    (h : s.SendToConnection connId msg = .ok (s1, err)) : s1.next = s.next := by
  unfold Server.SendToConnection at h
  split at h
  · dsimp only at h
    split at h
    · cases h
    · cases h; rfl
    · split at h
      · cases h
      · cases h; rfl
  · cases h; rfl

/-- The loop of `SendToConnections` over any list of ids, from a state that satisfies the
invariant: it returns, keeps the invariant, and every entry is either unchanged or
deleted, the latter only for an id it reports as failed. -/
theorem sendLoop_inv (msg : String) (ids : List String) :
    ∀ s : Server, RegistryInv s →
      ∃ s' errIds, Server.sendLoop msg ids s = .ok (s', errIds) ∧ RegistryInv s' ∧
        (∀ id, s'.clients id = s.clients id ∨ (s'.clients id = none ∧ id ∈ errIds)) ∧
        (∀ id, id ∈ errIds → id ∈ ids) ∧ s'.next = s.next := by
  induction ids with
  | nil =>
    intro s hinv
    exact ⟨s, [], rfl, hinv, fun _ => Or.inl rfl, fun _ h => h, rfl⟩
  | cons a rest ih =>
    intro s hinv
    obtain ⟨s1, err, hstep, herr, hinv1, hcl, hshrink, _, hroom⟩ :=
      sendToConnection_step s a msg hinv
    obtain ⟨s2, errIds, hloop, hinv2, hframe, hsub, hnext⟩ := ih s1 hinv1
    refine ⟨s2, if err.isSome then a :: errIds else errIds, ?_, hinv2, ?_, ?_, ?_⟩
    · simp only [Server.sendLoop, hstep, hloop]
    · intro id
      rcases hframe id with h | ⟨h, hmem⟩
      · by_cases hid : id = a
        · subst hid
          cases he : err.isSome with
          | true =>
            rcases hshrink id with h2 | h2
            · left; rw [h, h2]
            · right; exact ⟨by rw [h, h2], by simp⟩
          | false =>
            rw [he] at herr
            obtain ⟨p, hp, hlt⟩ := undeliverable_false s id herr.symm
            left; rw [h, (hroom p hp hlt).1, hp]
        · left; rw [h, hcl id hid]
      · right
        refine ⟨h, ?_⟩
        split
        · exact List.mem_cons_of_mem _ hmem
        · exact hmem
    · intro id hid
      split at hid
      · rcases List.mem_cons.mp hid with rfl | h
        · exact List.mem_cons_self _ _
        · exact List.mem_cons_of_mem _ (hsub id h)
      · exact List.mem_cons_of_mem _ (hsub id hid)
    · rw [hnext, sendToConnection_next s s1 a msg err hstep]

theorem inv_init (config : String → Option String) (rpcClient : RpcCall → Option String) :
    RegistryInv (NewWebSocketServer config rpcClient) ∧
      Allocated (NewWebSocketServer config rpcClient) :=
  ⟨fun _ _ h => by simp [NewWebSocketServer] at h,
    fun _ _ h => by simp [NewWebSocketServer] at h⟩

/-- Registering a freshly created session keeps the invariant. -/
theorem inv_register (s s' : Server) (c : Nat) (tokenInfo : TokenInfo)
    (hinv : RegistryInv s) (halloc : Allocated s)
    (h : (s.newClient c tokenInfo).1.handleClients (.register (s.newClient c tokenInfo).2)
      = .ok s') :
    RegistryInv s' ∧ Allocated s' := by
  simp only [Server.newClient, Server.handleClients, Server.SuccessRpc,
    Function.update_same] at h
  cases h
  constructor
  · intro id q hq
    by_cases hid : id = tokenInfo.ConnId
    · subst hid
      have hq2 : q = s.next := by simpa using hq.symm
      subst hq2
      simp [Chan.make]
    · have hq2 : s.clients id = some q := by simpa [Function.update_noteq hid] using hq
      have hne : q ≠ s.next := Nat.ne_of_lt (halloc id q hq2)
      have := hinv id q hq2
      simpa [Function.update_noteq hne] using this
  · intro id q hq
    by_cases hid : id = tokenInfo.ConnId
    · subst hid
      have hq2 : q = s.next := by simpa using hq.symm
      subst hq2
      exact Nat.lt_succ_self _
    · have hq2 : s.clients id = some q := by simpa [Function.update_noteq hid] using hq
      exact Nat.lt_succ_of_lt (halloc id q hq2)

theorem allocated_of_shrink (s s' : Server) (halloc : Allocated s)
    (hshrink : ∀ id, s'.clients id = s.clients id ∨ s'.clients id = none)
    (hnext : s'.next = s.next) : Allocated s' := by
  intro id q hq
  rw [hnext]
  rcases hshrink id with h | h
  · rw [h] at hq; exact halloc id q hq
  · rw [h] at hq; cases hq

theorem inv_dequeue (s : Server) (p : Nat) (hinv : RegistryInv s) (halloc : Allocated s) :
    RegistryInv (s.dequeue p) ∧ Allocated (s.dequeue p) := by
  constructor
  · intro id q hq
    have hq2 : s.clients id = some q := hq
    have := hinv id q hq2
    by_cases hqp : q = p
    · subst hqp; simpa [Server.dequeue] using this
    · simpa [Server.dequeue, Function.update_noteq hqp] using this
  · exact fun id q hq => halloc id q hq

theorem serveWs_frame (s : Server) (unmarshal : String → Option TokenInfo) (r : Request) :
    (s.serveWs unmarshal r).1.clients = s.clients ∧
    (∀ q, q < s.next → (s.serveWs unmarshal r).1.heap q = s.heap q) ∧
    s.next ≤ (s.serveWs unmarshal r).1.next := by
  obtain ⟨h1, h2, h3⟩ := checkToken_frame s unmarshal r.query
  unfold Server.serveWs
  split
  · rename_i heq
    rw [heq] at h1 h2 h3
    exact ⟨h1, fun q _ => by rw [h2], Nat.le_of_eq h3.symm⟩
  · rename_i heq
    rw [heq] at h1 h2 h3
    dsimp only at h1 h2 h3
    split
    · exact ⟨h1, fun q _ => by rw [h2], Nat.le_of_eq h3.symm⟩
    · split
      · exact ⟨h1, fun q _ => by rw [h2], Nat.le_of_eq h3.symm⟩
      · refine ⟨h1, fun q hq => ?_, ?_⟩
        · have hne : q ≠ s.next := Nat.ne_of_lt hq
          simp only [Server.newClient]
          rw [h3, Function.update_noteq hne, h2]
        · simp only [Server.newClient]
          rw [h3]
          exact Nat.le_succ _

theorem inv_handshake (s : Server) (unmarshal : String → Option TokenInfo) (r : Request)
    (hinv : RegistryInv s) (halloc : Allocated s) :
    RegistryInv (s.serveWs unmarshal r).1 ∧ Allocated (s.serveWs unmarshal r).1 := by
  obtain ⟨h1, h2, h3⟩ := serveWs_frame s unmarshal r
  constructor
  · intro id q hq
    rw [h1] at hq
    rw [h2 q (halloc id q hq)]
    exact hinv id q hq
  · intro id q hq
    rw [h1] at hq
    exact Nat.lt_of_lt_of_le (halloc id q hq) h3

theorem reachable_inv (s : Server) (h : Reachable s) : RegistryInv s ∧ Allocated s := by
  induction h with
  | init config rpcClient => exact inv_init config rpcClient
  | register c tokenInfo _ hstep ih => exact inv_register _ _ c tokenInfo ih.1 ih.2 hstep
  | @unregister s s' p _ _ hstep ih =>
    obtain ⟨hinv', hdel, hkeep, _, _, _, _, hnext⟩ := unregister_ok s s' p ih.1 hstep
    refine ⟨hinv', allocated_of_shrink s s' ih.2 ?_ hnext⟩
    intro id
    by_cases hid : id = (s.heap p).connId
    · right; rw [hid]; exact hdel
    · left; exact hkeep id hid
  | @send s s' connId msg err _ hstep ih =>
    obtain ⟨s1, err1, h1, _, hinv1, _, hshrink, _, _⟩ := sendToConnection_step s connId msg ih.1
    rw [hstep] at h1
    cases h1
    exact ⟨hinv1, allocated_of_shrink s s' ih.2 hshrink
      (sendToConnection_next s s' connId msg err hstep)⟩
  | @sendMany s s' connections msg res _ hstep ih =>
    obtain ⟨s1, errIds, h1, hinv1, hframe, _, hnext⟩ := sendLoop_inv msg connections s ih.1
    have hs : s' = s1 := by
      simp only [Server.SendToConnections, h1] at hstep
      split at hstep <;> cases hstep <;> rfl
    subst hs
    refine ⟨hinv1, allocated_of_shrink s s' ih.2 ?_ hnext⟩
    intro id
    rcases hframe id with h | ⟨h, _⟩
    · exact Or.inl h
    · exact Or.inr h
  | @kick s s' connections sched res _ hstep ih =>
    obtain ⟨s1, pending, reqs, done, hk, _, _, _, _, _, _, hinv1, hnext, hshrink⟩ :=
      kickConnections_run s connections sched ih.1
    rw [hstep] at hk
    cases hk
    exact ⟨hinv1, allocated_of_shrink s s' ih.2 hshrink hnext⟩
  | dequeue p _ ih => exact inv_dequeue _ p ih.1 ih.2
  | handshake unmarshal r _ ih => exact inv_handshake _ unmarshal r ih.1 ih.2

/-- C9: in every state reachable from the empty registry by register events for freshly
created sessions, unregister events for sessions created before, `SendToConnection`,
`SendToConnections` and `KickConnections` calls (and dequeues by the writers), every
session in the registry is stored under its own connection id and has neither its
mailbox nor its transport closed; hence `SendToConnection` always returns: it never
sends into a closed mailbox. -/
theorem reachable_registry_invariant (s : Server) (h : Reachable s) :
    (∀ connId p, s.clients connId = some p →
      (s.heap p).connId = connId ∧ (s.heap p).send.closed = false ∧
        (s.heap p).conn.closed = false) ∧
    (∀ connId msg, ∃ s' err, s.SendToConnection connId msg = .ok (s', err)) := by
  have hinv := (reachable_inv s h).1
  refine ⟨hinv, fun connId msg => ?_⟩
  obtain ⟨s1, err, h1, _⟩ := sendToConnection_step s connId msg hinv
  exact ⟨s1, err, h1⟩

/-- Witness of C9: the state after the handshake session of `c1` was registered. -/
theorem reachable_registry_invariant_witness :
    Reachable registeredServer ∧ registeredServer.clients "c1" = some 0 ∧
      ((registeredServer.heap 0).connId = "c1" ∧
        (registeredServer.heap 0).send.closed = false ∧
        (registeredServer.heap 0).conn.closed = false) ∧
      ∃ s' err, registeredServer.SendToConnection "c1" "hello" = .ok (s', err) := by
  have hr : Reachable registeredServer :=
    Reachable.register 7 c1Token (Reachable.init (fun _ => none) (fun _ => none)) rfl
  obtain ⟨h1, h2⟩ := reachable_registry_invariant registeredServer hr
  exact ⟨hr, by decide, h1 "c1" 0 (by decide), h2 "c1" "hello"⟩

/-! ## The Delivery API and the registry -/

/-- C8, counterexample: a delivery to `c3`, registered with a full mailbox, removes the
entry of `c3` from the registry; the coordinator is not involved. -/
theorem sendToConnection_mutates_registry :
    RegistryInv demoServer ∧ demoServer.clients "c3" = some 1 ∧
    ∃ s', demoServer.SendToConnection "c3" "hello" = .ok (s', some (errSendFailed "c3")) ∧
      s'.clients "c3" = none ∧ s'.clients ≠ demoServer.clients := by
  have h3 : (demoServer.heap 1).send.cap ≤ (demoServer.heap 1).send.buf.length :=
    Nat.le_of_eq (List.length_replicate 1024 (bytesOf "x")).symm
  refine ⟨demoServer_inv, by decide,
    _, sendToConnection_full demoServer "c3" "hello" 1 (by decide) (by decide) h3, ?_, ?_⟩
  · simp
  · intro h
    have h2 := congrFun h "c3"
    simp at h2
    exact absurd h2 (by decide)

/-- C8, amended: from a state that satisfies the registry invariant, the Delivery API
never inserts or replaces a registry entry.  `SendToConnection` deletes the entry of its
id when that id is registered with a full mailbox and otherwise leaves the mapping
exactly as it was; `SendToConnections` leaves every entry unchanged or deletes it, the
latter only for a listed id that it reports as failed; `KickConnections` writes nothing:
the state when it returns is the initial state after the coordinator's `handleClients`
processed the unregister requests it has finished, so no entry is inserted or replaced
and none is removed but by the coordinator. -/
theorem delivery_registry_frame (s : Server) (hinv : RegistryInv s) :
    (∀ connId msg, ∃ s' err, s.SendToConnection connId msg = .ok (s', err) ∧
      ((∃ p, s.clients connId = some p ∧
          (s.heap p).send.cap ≤ (s.heap p).send.buf.length) →
        s'.clients = Function.update s.clients connId none) ∧
      (¬ (∃ p, s.clients connId = some p ∧
          (s.heap p).send.cap ≤ (s.heap p).send.buf.length) →
        s'.clients = s.clients)) ∧
    (∀ connections msg, ∃ s' res, s.SendToConnections connections msg = .ok (s', res) ∧
      ∀ id, s'.clients id = s.clients id ∨
        (s'.clients id = none ∧ id ∈ connections ∧ id ∈ res.1)) ∧
    (∀ connections sched, ∃ s1 pending reqs done,
      s.KickConnections connections sched = .ok (s1, pending, reqs, none) ∧
      reqs = done ++ pending.toList ∧
      s.handleClientsLoop (done.map Event.unregister) = .ok s1 ∧
      ∀ id, s1.clients id = s.clients id ∨ s1.clients id = none) := by
  refine ⟨?_, ?_, fun connections sched => ?_⟩
  rotate_right
  · obtain ⟨s1, pending, reqs, done, hk, hl, hd, _, _, _, _, _, _, hshrink⟩ :=
      kickConnections_run s connections sched hinv
    exact ⟨s1, pending, reqs, done, hk, hl, hd, hshrink⟩
  · intro connId msg
    cases hp : s.clients connId with
    | none =>
      refine ⟨s, _, sendToConnection_absent s connId msg hp, ?_, fun _ => rfl⟩
      rintro ⟨p, h, _⟩
      cases h
    | some p =>
      have hopen := (hinv connId p hp).2.1
      by_cases hroom : (s.heap p).send.buf.length < (s.heap p).send.cap
      · refine ⟨_, _, sendToConnection_room s connId msg p hp hopen hroom, ?_, fun _ => rfl⟩
        rintro ⟨q, hq, hfull⟩
        cases hq
        exact absurd hroom (Nat.not_lt.mpr hfull)
      · have hfull := Nat.not_lt.mp hroom
        refine ⟨_, _, sendToConnection_full s connId msg p hp hopen hfull, fun _ => rfl, ?_⟩
        intro h
        exact absurd ⟨p, rfl, hfull⟩ h
  · intro connections msg
    obtain ⟨s1, errIds, h1, _, hframe, hsub, _⟩ := sendLoop_inv msg connections s hinv
    by_cases hlen : errIds.length > 0
    · refine ⟨s1, (errIds, some "存在发送失败的消息"), ?_, ?_⟩
      · simp only [Server.SendToConnections, h1, hlen, if_true]
      · intro id
        rcases hframe id with h | ⟨h, hmem⟩
        · exact Or.inl h
        · exact Or.inr ⟨h, hsub id hmem, hmem⟩
    · refine ⟨s1, ([], none), ?_, ?_⟩
      · simp only [Server.SendToConnections, h1, hlen, if_false]
      · intro id
        rcases hframe id with h | ⟨h, hmem⟩
        · exact Or.inl h
        · have : errIds = [] := List.length_eq_zero.mp (Nat.eq_zero_of_not_pos hlen)
          rw [this] at hmem
          cases hmem

/-- Witness of C8 as amended: the deliveries to `c3` (full mailbox) and to `c1` and `c2`
from the demo state. -/
theorem delivery_registry_frame_witness :
    RegistryInv demoServer ∧
    (∃ s' err, demoServer.SendToConnection "c3" "hello" = .ok (s', err) ∧
      s'.clients = Function.update demoServer.clients "c3" none) ∧
    (∃ s' err, demoServer.SendToConnection "c1" "hello" = .ok (s', err) ∧
      s'.clients = demoServer.clients) ∧
    (∃ s' res, demoServer.SendToConnections ["c1", "c2"] "hello" = .ok (s', res) ∧
      ∀ id, s'.clients id = demoServer.clients id ∨
        (s'.clients id = none ∧ id ∈ ["c1", "c2"] ∧ id ∈ res.1)) := by
  obtain ⟨h1, h2, _⟩ := delivery_registry_frame demoServer demoServer_inv
  have hfull : (demoServer.heap 1).send.cap ≤ (demoServer.heap 1).send.buf.length :=
    Nat.le_of_eq (List.length_replicate 1024 (bytesOf "x")).symm
  refine ⟨demoServer_inv, ?_, ?_, h2 ["c1", "c2"] "hello"⟩
  · obtain ⟨s', err, hs, hdel, _⟩ := h1 "c3" "hello"
    exact ⟨s', err, hs, hdel ⟨1, by decide, hfull⟩⟩
  · obtain ⟨s', err, hs, _, hkeep⟩ := h1 "c1" "hello"
    refine ⟨s', err, hs, hkeep ?_⟩
    rintro ⟨p, hp, hle⟩
    have hp0 : p = 0 := by
      have : demoServer.clients "c1" = some 0 := by decide
      rw [this] at hp
      exact (Option.some.inj hp).symm
    subst hp0
    exact absurd hle (by decide)

/-! ## An unregister event of a session that was replaced -/

theorem reachable_sendAll (connId : String) (msgs : List String) :
    ∀ (s s' : Server) (errs : List (Option String)), Reachable s →
      s.sendAll connId msgs = .ok (s', errs) → Reachable s' := by
  induction msgs with
  | nil =>
    intro s s' errs hr h
    cases h
    exact hr
  | cons m rest ih =>
    intro s s' errs hr h
    unfold Server.sendAll at h
    split at h
    · cases h
    · rename_i s1 err hstep
      split at h
      · cases h
      · rename_i s2 errs2 hrest
        cases h
        exact ih s1 _ errs2 (Reachable.send connId m err hr hstep) hrest

theorem registeredServer_reachable : Reachable registeredServer :=
  Reachable.register 7 c1Token (Reachable.init (fun _ => none) (fun _ => none)) rfl

/-- C10, the code at the failing input.  First: the session of `c1` (pointer 0) receives
1025 deliveries, the last of which finds the mailbox full, removes `c1` and closes the
mailbox; a new handshake session for `c1` (pointer 1) is registered; the state is
reachable, and the unregister event of the old session finds `c1` present and closes the
old session again, which panics.  Second: when two sessions for `c1` were registered one
after the other, the unregister event of the first deletes the entry that holds the
second, closes the first, and leaves the second open and unregistered. -/
theorem unregister_replaced_session :
    (∃ s, Reachable s ∧ 0 < s.next ∧ s.clients "c1" = some 1 ∧
      (s.heap 0).connId = "c1" ∧ (s.heap 1).send.closed = false ∧
      s.handleClients (.unregister 0) = .error .closeOfClosedChannel) ∧
    (Reachable duplicateServer ∧ duplicateServer.clients "c1" = some 1 ∧
      (duplicateServer.heap 0).connId = "c1" ∧
      ∃ s', duplicateServer.handleClients (.unregister 0) = .ok s' ∧
        s'.clients "c1" = none ∧
        (s'.heap 1).send.closed = false ∧ (s'.heap 1).conn.closed = false ∧
        (s'.heap 0).send.closed = true ∧ (s'.heap 0).conn.closed = true) := by
  constructor
  · -- 1024 deliveries fill the mailbox of pointer 0
    obtain ⟨s1, h1, hc1, hs1, _, hid1, hn1⟩ :=
      sendAll_room "c1" 0 (List.replicate 1024 "x") registeredServer (by decide) (by decide)
        (by rw [List.length_replicate]; decide)
    have hr1 : Reachable s1 := reachable_sendAll "c1" _ _ _ _ registeredServer_reachable h1
    have hp1 : s1.clients "c1" = some 0 := by rw [hc1]; decide
    have hopen1 : (s1.heap 0).send.closed = false := by rw [hs1]; decide
    have hfull1 : (s1.heap 0).send.cap ≤ (s1.heap 0).send.buf.length := by
      rw [hs1]
      simp only [List.length_append, List.length_map, List.length_replicate]
      decide
    -- the next delivery removes `c1` and closes the mailbox
    have h2 := sendToConnection_full s1 "c1" "x" 0 hp1 hopen1 hfull1
    have hr2 := Reachable.send "c1" "x" _ hr1 h2
    -- a new session for `c1` is registered
    have hr3 := Reachable.register 8 c1Token hr2 rfl
    have hn : s1.next = 1 := by rw [hn1]; rfl
    have hid : (s1.heap 0).connId = "c1" := by rw [hid1]; rfl
    have h01 : (0 : Nat) ≠ 1 := by decide
    refine ⟨_, hr3, ?_, ?_, ?_, ?_, ?_⟩
    · simp [Server.newClient, Server.SuccessRpc]
    · simp [Server.newClient, Server.SuccessRpc, hn, c1Token]
    · simp [Server.newClient, Server.SuccessRpc, hn, Function.update_noteq h01, hid]
    · simp [Server.newClient, Server.SuccessRpc, hn, Chan.make]
    · apply unregister_closed _ 0 1
      · simp [Server.newClient, Server.SuccessRpc, hn, Function.update_noteq h01, hid,
          c1Token]
      · simp [Server.newClient, Server.SuccessRpc, hn, Function.update_noteq h01]
  · have hr : Reachable duplicateServer :=
      Reachable.register 8 c1Token registeredServer_reachable rfl
    refine ⟨hr, by decide, by decide, _,
      unregister_present duplicateServer 0 1 (by decide) (by decide), ?_, ?_, ?_, ?_, ?_⟩
    · decide
    · decide
    · decide
    · decide
    · decide

end Comet
